import Mathlib

/-!
Shallow embedding of the node-acp repository (an implementation of the ACP
base-station management protocol) and proofs about its specification claims.

Bytes are modelled as natural numbers; JavaScript "binary" strings and node
Buffers both become `List Nat` (each element intended `< 256`; validity
hypotheses state this where a proof needs it).  Fallible code returns
`Except`.  32-bit signed header fields are `Int` with explicit two's
complement encoding.
-/

deriving instance DecidableEq for Except

namespace ACP

/-! ## Byte-level utilities shared by all components -/

/-- Big-endian 4-byte encoding of a natural number (the low 32 bits),
matching `Buffer.writeUInt32BE` on an in-range value. -/
def be32 (n : Nat) : List Nat :=
  [n / 16777216 % 256, n / 65536 % 256, n / 256 % 256, n % 256]

/-- Big-endian accumulation of a byte list, matching `Buffer.readUIntBE`
over the whole list. -/
def rdBE (l : List Nat) : Nat :=
  l.foldl (fun a b => a * 256 + b) 0

/-- Read an unsigned big-endian 32-bit value from the first four bytes,
matching `Buffer.readUInt32BE(off)` after the offset has been dropped. -/
def rd32 (l : List Nat) : Nat := rdBE (l.take 4)

/-- Whether an integer fits a signed 32-bit field (what
`Buffer.writeInt32BE` accepts without throwing). -/
def int32ok (v : Int) : Prop := -2147483648 ≤ v ∧ v < 2147483648

instance (v : Int) : Decidable (int32ok v) := by unfold int32ok; infer_instance

/-- Two's-complement 4-byte big-endian encoding of a signed 32-bit value,
matching `Buffer.writeInt32BE`. -/
def int32Bytes (v : Int) : List Nat := be32 (v % 4294967296).toNat

/-- Signed interpretation of an unsigned 32-bit value, matching
`Buffer.readInt32BE`. -/
def toInt32 (n : Nat) : Int :=
  if n ≥ 2147483648 then (n : Int) - 4294967296 else (n : Int)

/-- Read a signed big-endian 32-bit value from the first four bytes. -/
def rdInt32 (l : List Nat) : Int := toInt32 (rd32 l)

/-- One step of the Adler-32 state update (state is the pair `(a, b)`). -/
def adler32Step (p : Nat × Nat) (c : Nat) : Nat × Nat :=
  ((p.1 + c) % 65521, (p.2 + (p.1 + c) % 65521) % 65521)

/-- Adler-32 checksum of a byte list (the `adler32.sum` npm module used by
the repository); the empty list checksums to 1. -/
def adler32 (data : List Nat) : Nat :=
  let p := data.foldl adler32Step (1, 0)
  p.2 * 65536 + p.1

/-- The running Adler-32 state stays below the modulus. -/
theorem adler32_foldl_lt (data : List Nat) (p : Nat × Nat)
    (ha : p.1 < 65521) (hb : p.2 < 65521) :
    (data.foldl adler32Step p).1 < 65521 ∧ (data.foldl adler32Step p).2 < 65521 := by
  induction data generalizing p with
  | nil => exact ⟨ha, hb⟩
  | cons c tl ih =>
      exact ih _ (Nat.mod_lt _ (by norm_num)) (Nat.mod_lt _ (by norm_num))

/-- Adler-32 checksums fit in an unsigned 32-bit field. -/
theorem adler32_lt (data : List Nat) : adler32 data < 4294967296 := by
  have h := adler32_foldl_lt data (1, 0) (by norm_num) (by norm_num)
  show (data.foldl adler32Step (1, 0)).2 * 65536 + (data.foldl adler32Step (1, 0)).1 < 4294967296
  omega

/-- `Buffer.write(s, off, n, 'binary')` into a zero-filled region of length
`n`: the first `min n |s|` bytes of `s` (masked to 8 bits by the latin1
encoder), then zero padding up to length `n`. -/
def writeStr (s : List Nat) (n : Nat) : List Nat :=
  (s.take n).map (· % 256) ++ List.replicate (n - (s.take n).length) 0

theorem writeStr_length (s : List Nat) (n : Nat) : (writeStr s n).length = n := by
  simp only [writeStr, List.length_append, List.length_map, List.length_replicate,
    List.length_take]
  omega

/-- Writing a byte string of exactly the field width reproduces it. -/
theorem writeStr_id (s : List Nat) (n : Nat) (hlen : s.length = n)
    (hb : ∀ b ∈ s, b < 256) : writeStr s n = s := by
  have ht : s.take n = s := List.take_of_length_le (by omega)
  have hmap : s.map (· % 256) = s := by
    have := List.map_congr_left (l := s) (f := (· % 256)) (g := id)
      (fun b hbs => Nat.mod_eq_of_lt (hb b hbs))
    simpa using this
  simp only [writeStr, ht, hlen, Nat.sub_self, List.replicate_zero, List.append_nil, hmap]

theorem rdBE_be32 (n : Nat) (h : n < 4294967296) : rdBE (be32 n) = n := by
  simp only [rdBE, be32, List.foldl]
  omega

theorem rd32_be32 (n : Nat) (h : n < 4294967296) : rd32 (be32 n) = n := by
  have hl : (be32 n).length ≤ 4 := by simp [be32]
  rw [rd32, List.take_of_length_le hl]
  exact rdBE_be32 n h

theorem be32_lt (n : Nat) : ∀ b ∈ be32 n, b < 256 := by
  intro b hb
  simp only [be32, List.mem_cons, List.not_mem_nil, or_false] at hb
  rcases hb with rfl | rfl | rfl | rfl <;> exact Nat.mod_lt _ (by norm_num)

theorem int32Bytes_lt (v : Int) : ∀ b ∈ int32Bytes v, b < 256 :=
  be32_lt _

theorem be32_length (n : Nat) : (be32 n).length = 4 := rfl

theorem int32Bytes_length (v : Int) : (int32Bytes v).length = 4 := rfl

theorem rdInt32_int32Bytes (v : Int) (h : int32ok v) :
    rdInt32 (int32Bytes v) = v := by
  obtain ⟨h1, h2⟩ := h
  have hmod : 0 ≤ v % 4294967296 := Int.emod_nonneg v (by norm_num)
  have hlt : v % 4294967296 < 4294967296 := Int.emod_lt_of_pos v (by norm_num)
  have hn : (v % 4294967296).toNat < 4294967296 := by omega
  rw [rdInt32, int32Bytes, rd32_be32 _ hn]
  simp only [toInt32]
  omega

theorem rd32_lt (l : List Nat) (hb : ∀ b ∈ l, b < 256) : rd32 l < 4294967296 := by
  have key : ∀ (xs : List Nat), (∀ b ∈ xs, b < 256) → ∀ a : Nat,
      xs.foldl (fun a b => a * 256 + b) a < (a + 1) * 256 ^ xs.length := by
    intro xs
    induction xs with
    | nil => intro _ a; simp
    | cons x tl ih =>
        intro hx a
        have hxl : x < 256 := hx x (by simp)
        have := ih (fun b hb => hx b (by simp [hb])) (a * 256 + x)
        calc (x :: tl).foldl (fun a b => a * 256 + b) a
            = tl.foldl (fun a b => a * 256 + b) (a * 256 + x) := rfl
          _ < (a * 256 + x + 1) * 256 ^ tl.length := this
          _ ≤ (a + 1) * 256 ^ (x :: tl).length := by
              simp only [List.length_cons, pow_succ]
              nlinarith [pow_pos (by norm_num : (0:Nat) < 256) tl.length]
  have h4 : (l.take 4).length ≤ 4 := by simp
  have hb4 : ∀ b ∈ l.take 4, b < 256 := fun b hbm => hb b (List.mem_of_mem_take hbm)
  have := key (l.take 4) hb4 0
  have hpow : (256 : Nat) ^ (l.take 4).length ≤ 256 ^ 4 :=
    Nat.pow_le_pow_right (by norm_num) h4
  calc rd32 l = (l.take 4).foldl (fun a b => a * 256 + b) 0 := rfl
    _ < (0 + 1) * 256 ^ (l.take 4).length := this
    _ ≤ 4294967296 := by simpa using hpow

theorem toInt32_int32ok (n : Nat) (h : n < 4294967296) : int32ok (toInt32 n) := by
  simp only [toInt32, int32ok]
  omega

/-! ## Keystream (src/lib/keystream.ts) -/

/-- The static 16-byte obfuscation key `ACP_STATIC_KEY`. -/
def ACP_STATIC_KEY : List Nat :=
  [0x5b, 0x6f, 0xaf, 0x5d, 0x9d, 0x5b, 0x0e, 0x13,
   0x51, 0xf2, 0xda, 0x1d, 0xe7, 0xe8, 0xd6, 0x73]

/-- `generateACPKeystream(length)`: byte `idx` is
`((idx + 0x55) & 0xFF) XOR ACP_STATIC_KEY[idx % 16]`. -/
def generateACPKeystream (length : Nat) : List Nat :=
  (List.range length).map fun idx =>
    ((idx + 0x55) &&& 0xFF) ^^^ (ACP_STATIC_KEY.getD (idx % ACP_STATIC_KEY.length) 0)

/-! ## Header key (src/lib/message.ts, generateACPHeaderKey) -/

/-- `generateACPHeaderKey(password)`: truncate the password (a list of char
codes) to 0x20 bytes, right-pad with NUL to exactly 0x20, and XOR with the
0x20-byte keystream. -/
def generateACPHeaderKey (password : List Nat) : List Nat :=
  let password_length := 0x20
  let password_key := generateACPKeystream password_length
  let password_buffer :=
    password.take password_length ++
      List.replicate (password_length - (password.take password_length).length) 0
  (List.range password_length).map fun i =>
    (password_key.getD i 0) ^^^ (password_buffer.getD i 0)

/-- Char codes of the password "testing". -/
def testingPassword : List Nat := [0x74, 0x65, 0x73, 0x74, 0x69, 0x6e, 0x67]

/-- C9: `generateACPHeaderKey` only depends on the first 32 bytes of the
password (truncation), and on the concrete password "testing" it produces
the 32-byte value 7a5c8b71ad6f324f0cac857d868ab5173e09c835f431657f3c9cb56d969aa507. -/
theorem c9_generateACPHeaderKey_spec :
    (∀ password : List Nat,
      generateACPHeaderKey password = generateACPHeaderKey (password.take 32)) ∧
    generateACPHeaderKey testingPassword =
      [0x7a, 0x5c, 0x8b, 0x71, 0xad, 0x6f, 0x32, 0x4f,
       0x0c, 0xac, 0x85, 0x7d, 0x86, 0x8a, 0xb5, 0x17,
       0x3e, 0x09, 0xc8, 0x35, 0xf4, 0x31, 0x65, 0x7f,
       0x3c, 0x9c, 0xb5, 0x6d, 0x96, 0x9a, 0xa5, 0x07] := by
  constructor
  · intro password
    simp [generateACPHeaderKey, List.take_take]
  · rfl

/-! ## Property element codec (src/lib/property.ts) -/

/-- A value held by a `Property`: either a byte buffer or a raw number (the
`composeRawElement` code path distinguishes exactly these). -/
inductive PropValue where
  | buf (bytes : List Nat)
  | num (n : Nat)
  deriving DecidableEq

/-- Errors raised by the property codec. -/
inductive PropErr where
  | headerSize
  | invalidName
  | invalidValue
  | range
  deriving DecidableEq

/-- The `Property` object: `name` and `value` are `undefined` for the
sentinel property. -/
structure PropertyRaw where
  name : Option (List Nat)
  value : Option PropValue
  deriving DecidableEq

/-- `Property.packHeader`: 4 name bytes (written like `buffer.write(name,
0, 4)` into zeroed storage), then flags and size as big-endian u32. -/
def Property.packHeader (name : List Nat) (flags size : Nat) : Except PropErr (List Nat) :=
  if flags < 4294967296 ∧ size < 4294967296 then
    .ok (writeStr name 4 ++ be32 flags ++ be32 size)
  else .error .range

/-- `Property.composeRawElement(flags, property)` (src/lib/property.ts):
defaults absent name to four NUL bytes and an absent value to a four-NUL
buffer, then writes the 12-byte header followed by the value bytes (a
number value becomes 4 bytes big-endian with size fixed to 4). -/
def Property.composeRawElement (flags : Nat) (property : PropertyRaw) :
    Except PropErr (List Nat) :=
  let name := match property.name with
    | some n => n
    | none => [0, 0, 0, 0]
  let value : PropValue := match property.value with
    | some v => v
    | none => .buf [0, 0, 0, 0]
  match value with
  | .num n =>
      if n < 4294967296 then
        (Property.packHeader name flags 4).map (· ++ be32 n)
      else .error .range
  | .buf b => (Property.packHeader name flags b.length).map (· ++ b)

/-- C5 counterexample: composing the empty (sentinel) property with
flags 0 does NOT produce 16 zero bytes — the size field holds 4. -/
theorem c5_sentinel_not_sixteen_zeros :
    Property.composeRawElement 0 ⟨none, none⟩ ≠ .ok (List.replicate 16 0) := by
  decide

/-- C5 (amended): composing the empty (sentinel) property with flags 0
produces the 16-byte block with 4 zero name bytes, 4 zero flag bytes, a
size field equal to 4 (bytes 00 00 00 04), and 4 zero payload bytes. -/
theorem c5_sentinel_encoding :
    Property.composeRawElement 0 ⟨none, none⟩ =
      .ok [0, 0, 0, 0, 0, 0, 0, 0, 0, 0, 0, 4, 0, 0, 0, 0] := by
  rfl

/-- The `Property` constructor (src/lib/property.ts): a name of four NUL
bytes yields the sentinel (name and value both absent); otherwise the name
must be a supported property name and the value (a Buffer here, hence
always truthy) goes through the type's value initialiser.  The supported
name table and the per-type initialisers/validators are passed as
parameters `supported` and `init`. -/
def Property.mk' (supported : List (List Nat))
    (init : List Nat → List Nat → Except PropErr (List Nat))
    (name value : List Nat) : Except PropErr PropertyRaw :=
  if name = [0, 0, 0, 0] then .ok ⟨none, none⟩
  else if name ∉ supported then .error .invalidName
  else (init name value).map fun v => ⟨some name, some (.buf v)⟩

/-- `Property.parseRawElement(data)` (src/lib/property.ts): unpack the
12-byte header (requiring at least 12 bytes), then construct a `Property`
from the name and ALL bytes after the header; the header's size and flags
fields are unused. -/
def Property.parseRawElement (supported : List (List Nat))
    (init : List Nat → List Nat → Except PropErr (List Nat))
    (data : List Nat) : Except PropErr PropertyRaw :=
  if (data.take 12).length ≠ 12 then .error .headerSize
  else Property.mk' supported init (data.take 4) (data.drop 12)

/-- C10: `parseRawElement` ignores the declared size: on any input of at
least 12 bytes it hands the name (bytes 0..4) and ALL bytes after the
12-byte header to the `Property` constructor, and replacing the 4 size
bytes (offsets 8..12) by any other 4 bytes leaves the result unchanged, so
a size field inconsistent with the actual value length is never detected. -/
theorem c10_parseRawElement_ignores_size (supported : List (List Nat))
    (init : List Nat → List Nat → Except PropErr (List Nat))
    (data size' : List Nat) (hlen : 12 ≤ data.length) (hsz : size'.length = 4) :
    Property.parseRawElement supported init data =
      Property.mk' supported init (data.take 4) (data.drop 12) ∧
    Property.parseRawElement supported init (data.take 8 ++ size' ++ data.drop 12) =
      Property.parseRawElement supported init data := by
  have htk : (data.take 12).length = 12 := by simp [List.length_take]; omega
  have h8 : (data.take 8).length = 8 := by simp [List.length_take]; omega
  have h12 : (data.take 8 ++ size').length = 12 := by
    simp [List.length_append, h8, hsz]
  have hlen' : (data.take 8 ++ size' ++ data.drop 12).length = data.length := by
    simp only [List.length_append, List.length_drop, hsz]
    omega
  have htk' : ((data.take 8 ++ size' ++ data.drop 12).take 12).length = 12 := by
    simp only [List.length_take, hlen']
    omega
  have hname : (data.take 8 ++ size' ++ data.drop 12).take 4 = data.take 4 := by
    rw [List.take_append_of_le_length (by omega),
      List.take_append_of_le_length (by omega), List.take_take]
    norm_num
  have hrest : (data.take 8 ++ size' ++ data.drop 12).drop 12 = data.drop 12 := by
    calc (data.take 8 ++ size' ++ data.drop 12).drop 12
        = (data.take 8 ++ size' ++ data.drop 12).drop (data.take 8 ++ size').length := by
          rw [h12]
      _ = data.drop 12 := List.drop_left _ _
  refine ⟨?_, ?_⟩
  · simp only [Property.parseRawElement]
    rw [if_neg (by omega)]
  · simp only [Property.parseRawElement]
    rw [if_neg (by omega), if_neg (by omega), hname, hrest]

/-- C10 witness: the spec's test vector 6 — element bytes
64627567 00000000 00000004 00003000 — with the size field replaced by
arbitrary bytes parses identically, and the value is everything after the
12-byte header. -/
theorem c10_parseRawElement_ignores_size_witness :
    Property.parseRawElement [[0x64, 0x62, 0x75, 0x67]] (fun _ v => .ok v)
        [0x64, 0x62, 0x75, 0x67, 0, 0, 0, 0, 0, 0, 0, 4, 0, 0, 0x30, 0] =
      Property.mk' [[0x64, 0x62, 0x75, 0x67]] (fun _ v => .ok v)
        [0x64, 0x62, 0x75, 0x67] [0, 0, 0x30, 0] ∧
    Property.parseRawElement [[0x64, 0x62, 0x75, 0x67]] (fun _ v => .ok v)
        [0x64, 0x62, 0x75, 0x67, 0, 0, 0, 0, 0xde, 0xad, 0xbe, 0xef, 0, 0, 0x30, 0] =
      Property.parseRawElement [[0x64, 0x62, 0x75, 0x67]] (fun _ v => .ok v)
        [0x64, 0x62, 0x75, 0x67, 0, 0, 0, 0, 0, 0, 0, 4, 0, 0, 0x30, 0] := by
  have h := c10_parseRawElement_ignores_size [[0x64, 0x62, 0x75, 0x67]]
    (fun _ v => .ok v)
    [0x64, 0x62, 0x75, 0x67, 0, 0, 0, 0, 0, 0, 0, 4, 0, 0, 0x30, 0]
    [0xde, 0xad, 0xbe, 0xef] (by decide) (by decide)
  exact ⟨h.1, h.2⟩

/-! ## Session receive loop (src/lib/session.ts, receiveSize) -/

/-- Outcome of running the `receiveSize` wait loop for a bounded number of
iterations. -/
inductive RecvOutcome where
  | timeout
  | success
  | pending
  deriving DecidableEq

/-- The `receiveSize` wait loop on a silent connection (no bytes ever
arrive, so `waiting_for` never decreases).  Each iteration first tests the
code's timeout guard `last_received_at > Date.now() + timeout`, then (since
`this.buffer` is an always-truthy Buffer object) refreshes
`last_received_at = Date.now()`.  `clock step` is the value of `Date.now()`
at iteration `step`; `fuel` bounds how many iterations we observe. -/
def receiveSizeSilent (fuel waiting last timeoutMs : Nat) (clock : Nat → Nat)
    (step : Nat) : RecvOutcome :=
  match fuel with
  | 0 => .pending
  | fuel + 1 =>
      if waiting = 0 then .success
      else if last > clock step + timeoutMs then .timeout
      else receiveSizeSilent fuel waiting (clock step) timeoutMs clock (step + 1)

/-- C3: the `receiveSize` timeout guard is inverted
(`last_received_at > Date.now() + timeout` instead of
`Date.now() > last_received_at + timeout`), so on a silent connection a
pending `receive` never raises Timeout: with any monotone clock and the
last-received stamp not in the future, the loop runs forever (stays
pending for every iteration bound) instead of timing out. -/
theorem c3_receiveSize_never_times_out (fuel waiting last timeoutMs : Nat)
    (clock : Nat → Nat) (step : Nat)
    (hmono : ∀ i, clock i ≤ clock (i + 1)) (hlast : last ≤ clock step)
    (hw : 0 < waiting) :
    receiveSizeSilent fuel waiting last timeoutMs clock step = .pending := by
  induction fuel generalizing last step with
  | zero => rfl
  | succ fuel ih =>
      have hnz : ¬ waiting = 0 := by omega
      have hguard : ¬ last > clock step + timeoutMs := by omega
      simp only [receiveSizeSilent, if_neg hnz, if_neg hguard]
      exact ih (clock step) (step + 1) (hmono step)

/-- C3 witness: a concrete silent `receive(1, 10000)` with the identity
clock never observes a timeout within 5 iterations. -/
theorem c3_receiveSize_never_times_out_witness :
    receiveSizeSilent 5 1 0 10000 id 0 = .pending :=
  c3_receiveSize_never_times_out 5 1 0 10000 id 0
    (fun i => Nat.le_succ i) (Nat.zero_le 0) (by decide)

/-! ## Message framing (src/lib/message.ts) -/

/-- Errors thrown by message parsing and composition. -/
inductive MsgErr where
  | needMoreData
  | badMagic
  | unknownVersion
  | headerChecksum
  | streamHeaderWithBody
  | bodyLengthMismatch
  | bodyChecksum
  | unknownCommand
  | range
  deriving DecidableEq

/-- The `Message` object with the fields set by its constructor. -/
structure Message where
  version : Int
  flags : Int
  unused : Int
  command : Int
  error_code : Int
  key : List Nat
  body : Option (List Nat)
  body_size : Int
  body_checksum : Nat
  deriving DecidableEq

/-- The `Message` constructor: with an absent body, `body_size` defaults to
-1 and `body_checksum` is 1; with a present body (possibly empty),
`body_size` defaults to the body length and `body_checksum` is the
Adler-32 of the body.  An explicit `body_size` argument always wins. -/
def Message.mk' (version flags unused command error_code : Int) (key : List Nat)
    (body : Option (List Nat)) (body_size? : Option Int) : Message :=
  match body with
  | none =>
      ⟨version, flags, unused, command, error_code, key, none, body_size?.getD (-1), 1⟩
  | some l =>
      ⟨version, flags, unused, command, error_code, key, some l,
        body_size?.getD (l.length : Int), adler32 l⟩

/-- Header magic "acpp". -/
def HEADER_MAGIC : List Nat := [0x61, 0x63, 0x70, 0x70]

/-- `Message.packHeader`: the 128-byte header layout.  `writeInt32BE` and
`writeUInt32BE` throw on out-of-range values, modelled by the guard. -/
def Message.packHeader (magic : List Nat) (version : Int)
    (header_checksum body_checksum : Nat) (body_size flags unused command error_code : Int)
    (key pad1 pad2 : List Nat) : Except MsgErr (List Nat) :=
  if int32ok version ∧ header_checksum < 4294967296 ∧ body_checksum < 4294967296 ∧
      int32ok body_size ∧ int32ok flags ∧ int32ok unused ∧ int32ok command ∧
      int32ok error_code then
    .ok (writeStr magic 4 ++ (int32Bytes version ++ (be32 header_checksum ++
      (be32 body_checksum ++ (int32Bytes body_size ++ (int32Bytes flags ++
      (int32Bytes unused ++ (int32Bytes command ++ (int32Bytes error_code ++
      (writeStr pad1 12 ++ (writeStr key 32 ++ writeStr pad2 48)))))))))))
  else .error .range

/-- The fields read back by `Message.unpackHeader`. -/
structure RawHeader where
  magic : List Nat
  version : Int
  header_checksum : Nat
  body_checksum : Nat
  body_size : Int
  flags : Int
  unused : Int
  command : Int
  error_code : Int
  key : List Nat
  pad1 : List Nat
  pad2 : List Nat
  deriving DecidableEq

/-- `Message.unpackHeader` on a 128-byte header (callers guarantee the
length; the JS version throws otherwise). -/
def Message.unpackHeader (d : List Nat) : RawHeader :=
  ⟨d.take 4, rdInt32 (d.drop 4), rd32 (d.drop 8), rd32 (d.drop 12), rdInt32 (d.drop 16),
    rdInt32 (d.drop 20), rdInt32 (d.drop 24), rdInt32 (d.drop 28), rdInt32 (d.drop 32),
    (d.drop 48).take 32, (d.drop 36).take 12, (d.drop 80).take 48⟩

/-- `Message.composeHeader`: pack with checksum zero, Adler-32 the result,
pack again with the checksum filled in. -/
def Message.composeHeader (m : Message) : Except MsgErr (List Nat) := do
  let tmphdr ← Message.packHeader HEADER_MAGIC m.version 0 m.body_checksum m.body_size
    m.flags m.unused m.command m.error_code m.key [] []
  Message.packHeader HEADER_MAGIC m.version (adler32 tmphdr) m.body_checksum m.body_size
    m.flags m.unused m.command m.error_code m.key [] []

/-- `Message.composeRawPacket`: header then body (`if (this.body) reply +=
this.body`, so an absent or empty body contributes nothing). -/
def Message.composeRawPacket (m : Message) : Except MsgErr (List Nat) :=
  (Message.composeHeader m).map fun h =>
    h ++ (match m.body with | some l => l | none => [])

/-- JavaScript `s.substr(0, n)` on a byte string: a negative length yields
the empty string. -/
def jsTake (n : Int) (l : List Nat) : List Nat := l.take n.toNat

/-- JavaScript `s.substr(start)` on a byte string: a negative start counts
from the end (clamped at 0). -/
def jsSubstrFrom (l : List Nat) (start : Int) : List Nat :=
  if 0 ≤ start then l.drop start.toNat
  else l.drop (max ((l.length : Int) + start) 0).toNat

/-- JavaScript truthiness of the `body_data` variable (a string or
`undefined`): present and non-empty. -/
def truthy (o : Option (List Nat)) : Bool :=
  match o with
  | some l => !l.isEmpty
  | none => false

/-- The known command set of `Message.parseRaw`. -/
def knownCommands : List Int := [1, 3, 4, 5, 6, 0x14, 0x15, 0x16, 0x17, 0x18, 0x19, 0x1a, 0x1b]

/-- `Message.parseRaw(data, return_remaining)`: needs 128 bytes, splits
header/body, verifies magic, version, recomputed header checksum, then the
body checks in source order — note that in `return_remaining` mode the body
is first truncated to `substr(0, body_size)` (empty when `body_size` is
-1), and the subsequent `body_data && ...` checks treat an empty string as
absent. -/
def Message.parseRaw (data : List Nat) (return_remaining : Bool) :
    Except MsgErr (Message × List Nat) :=
  if data.length < 128 then .error .needMoreData else
  let hd := Message.unpackHeader (data.take 128)
  let body0 : Option (List Nat) := if 128 < data.length then some (data.drop 128) else none
  if hd.magic ≠ HEADER_MAGIC then .error .badMagic else
  if ¬ (hd.version = 1 ∨ hd.version = 196609) then .error .unknownVersion else
  match Message.packHeader hd.magic hd.version 0 hd.body_checksum hd.body_size hd.flags
      hd.unused hd.command hd.error_code hd.key hd.pad1 hd.pad2 with
  | .error e => .error e
  | .ok tmphdr =>
    if hd.header_checksum ≠ adler32 tmphdr then .error .headerChecksum else
    let body1 : Option (List Nat) :=
      if return_remaining then body0.map (jsTake hd.body_size) else body0
    if truthy body1 ∧ hd.body_size = -1 then .error .streamHeaderWithBody else
    if truthy body1 ∧ hd.body_size ≠ ((body1.getD []).length : Int) then
      .error .bodyLengthMismatch else
    if truthy body1 ∧ hd.body_checksum ≠ adler32 (body1.getD []) then
      .error .bodyChecksum else
    if hd.command ∉ knownCommands then .error .unknownCommand else
    let message := Message.mk' hd.version hd.flags hd.unused hd.command hd.error_code
      hd.key body1 (some hd.body_size)
    if return_remaining then .ok (message, jsSubstrFrom data (128 + hd.body_size))
    else .ok (message, [])

/-- `Message.composeGetPropCommand`. -/
def Message.composeGetPropCommand (flags : Int) (password : List Nat)
    (payload : Option (List Nat)) : Message :=
  Message.mk' 196609 flags 0 0x14 0 (generateACPHeaderKey password) payload none

/-- `Message.composeAuthCommand` (always the empty-password key). -/
def Message.composeAuthCommand (flags : Int) (payload : Option (List Nat)) : Message :=
  Message.mk' 196609 flags 0 0x1a 0 (generateACPHeaderKey []) payload none

/-- `Message.composeMessageEx` with its explicit `payload_size` argument. -/
def Message.composeMessageEx (version flags unused command error_code : Int)
    (password : List Nat) (payload : Option (List Nat)) (payload_size : Option Int) :
    Message :=
  Message.mk' version flags unused command error_code (generateACPHeaderKey password)
    payload payload_size

/-! ### Header pack/unpack round trip lemmas -/

theorem dropStep (l seg tail : List Nat) (n : Nat) (h : l.drop n = seg ++ tail)
    (k : Nat) (hs : seg.length = k) : l.drop (n + k) = tail := by
  rw [← List.drop_drop, h, List.drop_left' hs]

theorem rd32_of_append (seg tail : List Nat) (hs : seg.length = 4) :
    rd32 (seg ++ tail) = rdBE seg := by
  rw [rd32, List.take_left' hs]

theorem rdInt32_of_append (seg tail : List Nat) (hs : seg.length = 4) :
    rdInt32 (seg ++ tail) = toInt32 (rdBE seg) := by
  rw [rdInt32, rd32_of_append seg tail hs]

/-- Unpacking a header assembled from fixed-width segments recovers each
segment. -/
theorem unpackHeader_append (m v hc bc bs f u c e p1 k p2 : List Nat)
    (hm : m.length = 4) (hv : v.length = 4) (hhc : hc.length = 4) (hbc : bc.length = 4)
    (hbs : bs.length = 4) (hf : f.length = 4) (hu : u.length = 4) (hcc : c.length = 4)
    (he : e.length = 4) (hp1 : p1.length = 12) (hk : k.length = 32) (hp2 : p2.length = 48) :
    Message.unpackHeader
        (m ++ (v ++ (hc ++ (bc ++ (bs ++ (f ++ (u ++ (c ++ (e ++ (p1 ++ (k ++ p2))))))))))) =
      ⟨m, toInt32 (rdBE v), rdBE hc, rdBE bc, toInt32 (rdBE bs), toInt32 (rdBE f),
        toInt32 (rdBE u), toInt32 (rdBE c), toInt32 (rdBE e), k, p1, p2⟩ := by
  set l := m ++ (v ++ (hc ++ (bc ++ (bs ++ (f ++ (u ++ (c ++ (e ++ (p1 ++ (k ++ p2))))))))))
    with hl
  have d4 : l.drop 4 = v ++ (hc ++ (bc ++ (bs ++ (f ++ (u ++ (c ++ (e ++ (p1 ++ (k ++ p2))))))))) := by
    rw [hl]; exact List.drop_left' hm
  have d8 : l.drop 8 = hc ++ (bc ++ (bs ++ (f ++ (u ++ (c ++ (e ++ (p1 ++ (k ++ p2)))))))) :=
    dropStep l _ _ 4 d4 4 hv
  have d12 : l.drop 12 = bc ++ (bs ++ (f ++ (u ++ (c ++ (e ++ (p1 ++ (k ++ p2))))))) :=
    dropStep l _ _ 8 d8 4 hhc
  have d16 : l.drop 16 = bs ++ (f ++ (u ++ (c ++ (e ++ (p1 ++ (k ++ p2)))))) :=
    dropStep l _ _ 12 d12 4 hbc
  have d20 : l.drop 20 = f ++ (u ++ (c ++ (e ++ (p1 ++ (k ++ p2))))) :=
    dropStep l _ _ 16 d16 4 hbs
  have d24 : l.drop 24 = u ++ (c ++ (e ++ (p1 ++ (k ++ p2)))) :=
    dropStep l _ _ 20 d20 4 hf
  have d28 : l.drop 28 = c ++ (e ++ (p1 ++ (k ++ p2))) :=
    dropStep l _ _ 24 d24 4 hu
  have d32 : l.drop 32 = e ++ (p1 ++ (k ++ p2)) :=
    dropStep l _ _ 28 d28 4 hcc
  have d36 : l.drop 36 = p1 ++ (k ++ p2) :=
    dropStep l _ _ 32 d32 4 he
  have d48 : l.drop 48 = k ++ p2 :=
    dropStep l _ _ 36 d36 12 hp1
  have d80 : l.drop 80 = p2 :=
    dropStep l _ _ 48 d48 32 hk
  have tm : l.take 4 = m := by rw [hl]; exact List.take_left' hm
  have tk : (l.drop 48).take 32 = k := by rw [d48]; exact List.take_left' hk
  have tp1 : (l.drop 36).take 12 = p1 := by rw [d36]; exact List.take_left' hp1
  have tp2 : (l.drop 80).take 48 = p2 := by
    rw [d80]; exact List.take_of_length_le (by omega)
  simp only [Message.unpackHeader, tm, tk, tp1, tp2, d4, d8, d12, d16, d20, d24, d28, d32,
    rdInt32_of_append _ _ hv, rd32_of_append _ _ hhc, rd32_of_append _ _ hbc,
    rdInt32_of_append _ _ hbs, rdInt32_of_append _ _ hf, rdInt32_of_append _ _ hu,
    rdInt32_of_append _ _ hcc, rdInt32_of_append _ _ he]

/-- Unpacking the header packed by `Message.packHeader` recovers every
field (the key and pads in their written, width-normalised form). -/
theorem unpackHeader_packHeader (version : Int) (hc bc : Nat) (bs f u c e : Int)
    (key pad1 pad2 hdr : List Nat)
    (hok : Message.packHeader HEADER_MAGIC version hc bc bs f u c e key pad1 pad2 =
      .ok hdr) :
    Message.unpackHeader hdr = ⟨HEADER_MAGIC, version, hc, bc, bs, f, u, c, e,
      writeStr key 32, writeStr pad1 12, writeStr pad2 48⟩ ∧ hdr.length = 128 := by
  rw [Message.packHeader] at hok
  split at hok
  case isFalse => cases hok
  case isTrue hguard =>
    obtain ⟨hver, hhc, hbc, hbs, hf, hu, hcmd, herr⟩ := hguard
    have hdreq := hok
    injection hdreq with hdreq
    subst hdreq
    have hmagic : writeStr HEADER_MAGIC 4 = HEADER_MAGIC :=
      writeStr_id _ _ rfl (by decide)
    rw [hmagic]
    constructor
    · rw [unpackHeader_append HEADER_MAGIC (int32Bytes version) (be32 hc) (be32 bc)
        (int32Bytes bs) (int32Bytes f) (int32Bytes u) (int32Bytes c) (int32Bytes e)
        (writeStr pad1 12) (writeStr key 32) (writeStr pad2 48)
        rfl (int32Bytes_length version) (be32_length hc) (be32_length bc)
        (int32Bytes_length bs) (int32Bytes_length f) (int32Bytes_length u)
        (int32Bytes_length c) (int32Bytes_length e) (writeStr_length pad1 12)
        (writeStr_length key 32) (writeStr_length pad2 48)]
      have hv : toInt32 (rdBE (int32Bytes version)) = version := rdInt32_int32Bytes version hver
      have hbsv : toInt32 (rdBE (int32Bytes bs)) = bs := rdInt32_int32Bytes bs hbs
      have hfv : toInt32 (rdBE (int32Bytes f)) = f := rdInt32_int32Bytes f hf
      have huv : toInt32 (rdBE (int32Bytes u)) = u := rdInt32_int32Bytes u hu
      have hcv : toInt32 (rdBE (int32Bytes c)) = c := rdInt32_int32Bytes c hcmd
      have hev : toInt32 (rdBE (int32Bytes e)) = e := rdInt32_int32Bytes e herr
      have hhcv : rdBE (be32 hc) = hc := rdBE_be32 hc hhc
      have hbcv : rdBE (be32 bc) = bc := rdBE_be32 bc hbc
      rw [hv, hbsv, hfv, huv, hcv, hev, hhcv, hbcv]
    · simp only [List.length_append, writeStr_length, int32Bytes_length, be32_length]
      rfl

/-- Evaluation of `Message.parseRaw` on a packet built from a valid packed
header followed by arbitrary tail bytes: all header checks pass and the
body handling reduces to the source's body logic over the tail. -/
theorem parseRaw_valid_header (ver fl un cmd ec bsz : Int) (bck : Nat)
    (key T H tail : List Nat) (rr : Bool)
    (hT : Message.packHeader HEADER_MAGIC ver 0 bck bsz fl un cmd ec key [] [] = .ok T)
    (hH : Message.packHeader HEADER_MAGIC ver (adler32 T) bck bsz fl un cmd ec key [] [] =
      .ok H)
    (hver : ver = 1 ∨ ver = 196609)
    (hkey : key.length = 32) (hkeyb : ∀ b ∈ key, b < 256) :
    Message.parseRaw (H ++ tail) rr =
      (let body0 : Option (List Nat) := if tail = [] then none else some tail
       let body1 : Option (List Nat) := if rr then body0.map (jsTake bsz) else body0
       if truthy body1 ∧ bsz = -1 then .error .streamHeaderWithBody else
       if truthy body1 ∧ bsz ≠ ((body1.getD []).length : Int) then .error .bodyLengthMismatch
       else if truthy body1 ∧ bck ≠ adler32 (body1.getD []) then .error .bodyChecksum
       else if cmd ∉ knownCommands then .error .unknownCommand
       else if rr then
         .ok (Message.mk' ver fl un cmd ec key body1 (some bsz),
           jsSubstrFrom (H ++ tail) (128 + bsz))
       else .ok (Message.mk' ver fl un cmd ec key body1 (some bsz), [])) := by
  obtain ⟨hfields, h128⟩ := unpackHeader_packHeader ver (adler32 T) bck bsz fl un cmd ec
    key [] [] H hH
  have hlen : (H ++ tail).length = 128 + tail.length := by
    simp [List.length_append, h128]
  have hnotlt : ¬ (H ++ tail).length < 128 := by omega
  have htake : (H ++ tail).take 128 = H := List.take_left' h128
  have hdrop : (H ++ tail).drop 128 = tail := List.drop_left' h128
  have hkid : writeStr key 32 = key := writeStr_id key 32 hkey hkeyb
  have hp1 : writeStr (writeStr ([] : List Nat) 12) 12 = writeStr ([] : List Nat) 12 := by
    decide
  have hp2 : writeStr (writeStr ([] : List Nat) 48) 48 = writeStr ([] : List Nat) 48 := by
    decide
  have hmagic : ¬ (HEADER_MAGIC ≠ HEADER_MAGIC) := fun hne => hne rfl
  have hvers : ¬ ¬ (ver = 1 ∨ ver = 196609) := fun hne => hne hver
  have hrepack : Message.packHeader HEADER_MAGIC ver 0 bck bsz fl un cmd ec key
      (writeStr ([] : List Nat) 12) (writeStr ([] : List Nat) 48) = .ok T := by
    rw [← hT]
    simp only [Message.packHeader, hp1, hp2]
  have hbody0 : (if 128 < (H ++ tail).length then some ((H ++ tail).drop 128) else none) =
      (if tail = [] then none else some tail) := by
    by_cases htail : tail = []
    · subst htail
      simp only [List.length_nil] at hlen
      rw [if_neg (by omega), if_pos rfl]
    · have : 0 < tail.length := List.length_pos.mpr htail
      rw [if_pos (by omega), if_neg htail, hdrop]
  have hchk : ¬ (adler32 T ≠ adler32 T) := fun hne => hne rfl
  simp only [Message.parseRaw, hnotlt, if_false, htake, hfields, hkid, hmagic, hvers,
    hrepack, hchk, hbody0, if_neg, ite_false, ite_true]

/-! ### C1: parse/compose round trip -/

/-- Validity of a Message for the round-trip law, following the claim's
valid-message conditions plus the data model's 32-bit field ranges, and
with the body required ABSENT or NON-EMPTY (the amendment). -/
def Message.strictValidB (m : Message) : Bool :=
  (m.version == 1 || m.version == 196609) &&
  decide (m.command ∈ knownCommands) &&
  decide (int32ok m.flags) && decide (int32ok m.unused) && decide (int32ok m.error_code) &&
  decide (int32ok m.body_size) &&
  (m.key.length == 32) && m.key.all (· < 256) &&
  (match m.body with
   | none => m.body_checksum == 1
   | some l => !l.isEmpty && l.all (· < 256) &&
       (m.body_size == (l.length : Int)) && (m.body_checksum == adler32 l))

/-- C1 (amended): for every valid Message whose body is absent or
NON-EMPTY (with length equal to body_size), parsing the composed packet
returns a Message equal in every field. -/
theorem c1_parse_compose_roundtrip (m : Message) (h : m.strictValidB = true) :
    (Message.composeRawPacket m).bind (fun d => Message.parseRaw d false) = .ok (m, []) := by
  obtain ⟨ver, fl, un, cmd, ec, key, body, bsz, bck⟩ := m
  simp only [Message.strictValidB, Bool.and_eq_true, Bool.or_eq_true, beq_iff_eq,
    decide_eq_true_eq, List.all_eq_true] at h
  obtain ⟨⟨⟨⟨⟨⟨⟨⟨hver, hcmd⟩, hfl⟩, hun⟩, hec⟩, hbsz⟩, hklen⟩, hkb⟩, hbody⟩ := h
  have hkb' : ∀ b ∈ key, b < 256 := fun b hb => by
    simpa using hkb b hb
  have hver32 : int32ok ver := by rcases hver with h | h <;> (subst h; constructor <;> norm_num)
  have hcmdor : cmd = 1 ∨ cmd = 3 ∨ cmd = 4 ∨ cmd = 5 ∨ cmd = 6 ∨ cmd = 20 ∨ cmd = 21 ∨
      cmd = 22 ∨ cmd = 23 ∨ cmd = 24 ∨ cmd = 25 ∨ cmd = 26 ∨ cmd = 27 := by
    simpa [knownCommands] using hcmd
  have hcmd32 : int32ok cmd := by
    rcases hcmdor with h | h | h | h | h | h | h | h | h | h | h | h | h <;>
      (subst h; constructor <;> norm_num)
  have hbck32 : bck < 4294967296 := by
    cases body with
    | none =>
        have h1 : bck = 1 := by simpa using hbody
        omega
    | some l =>
        have h1 : bck = adler32 l := by
          have h2 := hbody
          simp only [Bool.and_eq_true, beq_iff_eq] at h2
          exact h2.2
        have := adler32_lt l
        omega
  have hT : Message.packHeader HEADER_MAGIC ver 0 bck bsz fl un cmd ec key [] [] =
      .ok (writeStr HEADER_MAGIC 4 ++ (int32Bytes ver ++ (be32 0 ++ (be32 bck ++
        (int32Bytes bsz ++ (int32Bytes fl ++ (int32Bytes un ++ (int32Bytes cmd ++
        (int32Bytes ec ++ (writeStr [] 12 ++ (writeStr key 32 ++ writeStr [] 48))))))))))) := by
    rw [Message.packHeader, if_pos]
    exact ⟨hver32, by norm_num, hbck32, hbsz, hfl, hun, hcmd32, hec⟩
  set T := writeStr HEADER_MAGIC 4 ++ (int32Bytes ver ++ (be32 0 ++ (be32 bck ++
    (int32Bytes bsz ++ (int32Bytes fl ++ (int32Bytes un ++ (int32Bytes cmd ++
    (int32Bytes ec ++ (writeStr [] 12 ++ (writeStr key 32 ++ writeStr [] 48)))))))))) with hTdef
  have hH : Message.packHeader HEADER_MAGIC ver (adler32 T) bck bsz fl un cmd ec key [] [] =
      .ok (writeStr HEADER_MAGIC 4 ++ (int32Bytes ver ++ (be32 (adler32 T) ++ (be32 bck ++
        (int32Bytes bsz ++ (int32Bytes fl ++ (int32Bytes un ++ (int32Bytes cmd ++
        (int32Bytes ec ++ (writeStr [] 12 ++ (writeStr key 32 ++ writeStr [] 48))))))))))) := by
    rw [Message.packHeader, if_pos]
    exact ⟨hver32, adler32_lt T, hbck32, hbsz, hfl, hun, hcmd32, hec⟩
  set H := writeStr HEADER_MAGIC 4 ++ (int32Bytes ver ++ (be32 (adler32 T) ++ (be32 bck ++
    (int32Bytes bsz ++ (int32Bytes fl ++ (int32Bytes un ++ (int32Bytes cmd ++
    (int32Bytes ec ++ (writeStr [] 12 ++ (writeStr key 32 ++ writeStr [] 48)))))))))) with hHdef
  have hcompose : Message.composeHeader ⟨ver, fl, un, cmd, ec, key, body, bsz, bck⟩ =
      .ok H := by
    rw [Message.composeHeader, hT]
    exact hH
  cases body with
  | none =>
      have h1 : bck = 1 := by simpa using hbody
      subst h1
      have hparse := parseRaw_valid_header ver fl un cmd ec bsz 1 key T H [] false hT hH
        hver hklen hkb'
      rw [Message.composeRawPacket, hcompose]
      show Message.parseRaw (H ++ []) false = _
      rw [hparse]
      simp only [if_pos rfl]
      rw [if_neg (by simp [truthy]), if_neg (by simp [truthy]), if_neg (by simp [truthy]),
        if_neg (fun hn => hn hcmd)]
      rfl
  | some l =>
      have hbody' : ((!l.isEmpty && l.all fun x => decide (x < 256)) &&
          (bsz == (l.length : Int)) && (bck == adler32 l)) = true := hbody
      simp only [Bool.and_eq_true, beq_iff_eq, Bool.not_eq_true', List.all_eq_true,
        decide_eq_true_eq] at hbody'
      obtain ⟨⟨⟨hlne, hlb⟩, hbszl⟩, hbckl⟩ := hbody'
      have hlne' : l ≠ [] := by
        intro hl
        subst hl
        simp at hlne
      have hparse := parseRaw_valid_header ver fl un cmd ec bsz bck key T H l false hT hH
        hver hklen hkb'
      rw [Message.composeRawPacket, hcompose]
      show Message.parseRaw (H ++ l) false = _
      rw [hparse]
      have hlpos : 0 < l.length := List.length_pos.mpr hlne'
      have htr : truthy (some l) = true := by
        simp [truthy, hlne']
      simp only [if_neg hlne', Bool.false_eq_true, if_false]
      rw [if_neg (by rw [htr]; simp only [true_and]; omega :
        ¬ (truthy (some l) = true ∧ bsz = -1))]
      rw [if_neg (by rw [htr]; simp only [true_and, Option.getD_some]; omega :
        ¬ (truthy (some l) = true ∧ bsz ≠ (((some l).getD []).length : Int)))]
      rw [if_neg (by rw [htr]; simp only [true_and, Option.getD_some]; omega :
        ¬ (truthy (some l) = true ∧ bck ≠ adler32 ((some l).getD [])))]
      rw [if_neg (fun hn => hn hcmd)]
      simp only [Message.mk', Option.getD_some]
      rw [hbszl, hbckl]

/-- Validity of a Message exactly as claim C1 states it: version and
command in the known sets, key exactly 32 bytes, and either no body or a
body whose length equals body_size. -/
def Message.claimValidB (m : Message) : Bool :=
  (m.version == 1 || m.version == 196609) &&
  decide (m.command ∈ knownCommands) &&
  (m.key.length == 32) &&
  (match m.body with
   | none => true
   | some l => m.body_size == (l.length : Int))

set_option maxRecDepth 40000 in
/-- C1 counterexample: the Message with an EMPTY present body (valid per
the claim: length 0 equals body_size 0) does not survive the round trip —
parsing returns a Message with body ABSENT (and body_size 0), which
differs from the original in the body field. -/
theorem c1_roundtrip_fails_on_empty_body :
    Message.claimValidB
      (Message.mk' 196609 4 0 0x14 0 (List.replicate 32 0) (some []) none) = true ∧
    (Message.composeRawPacket
        (Message.mk' 196609 4 0 0x14 0 (List.replicate 32 0) (some []) none)).bind
        (fun d => Message.parseRaw d false) =
      .ok (Message.mk' 196609 4 0 0x14 0 (List.replicate 32 0) none (some 0), []) ∧
    Message.mk' 196609 4 0 0x14 0 (List.replicate 32 0) none (some 0) ≠
      Message.mk' 196609 4 0 0x14 0 (List.replicate 32 0) (some []) none := by
  refine ⟨by decide, by decide, by decide⟩

/-- C1 witness: the spec's GET_PROPERTY test-vector message (flags 4,
password "testing", body = the 16-byte dbug element) round trips. -/
theorem c1_parse_compose_roundtrip_witness :
    (Message.composeRawPacket (Message.composeGetPropCommand 4 testingPassword
        (some [0x64, 0x62, 0x75, 0x67, 0, 0, 0, 0, 0, 0, 0, 4, 0, 0, 0, 0]))).bind
      (fun d => Message.parseRaw d false) =
    .ok (Message.composeGetPropCommand 4 testingPassword
        (some [0x64, 0x62, 0x75, 0x67, 0, 0, 0, 0, 0, 0, 0, 4, 0, 0, 0, 0]), []) :=
  c1_parse_compose_roundtrip _ (by decide)

/-! ### C4: streaming-header rejection -/

theorem int32ok_of_mem_knownCommands (c : Int) (h : c ∈ knownCommands) : int32ok c := by
  have hor : c = 1 ∨ c = 3 ∨ c = 4 ∨ c = 5 ∨ c = 6 ∨ c = 20 ∨ c = 21 ∨ c = 22 ∨ c = 23 ∨
      c = 24 ∨ c = 25 ∨ c = 26 ∨ c = 27 := by simpa [knownCommands] using h
  rcases hor with h | h | h | h | h | h | h | h | h | h | h | h | h <;>
    (subst h; constructor <;> norm_num)

/-- Composition of a header succeeds for in-range fields, producing the
zero-checksum pack `T` and the final header `H`. -/
theorem composeHeader_ok (ver fl un cmd ec bsz : Int) (bck : Nat) (key : List Nat)
    (body : Option (List Nat)) (hver32 : int32ok ver) (hcmd32 : int32ok cmd)
    (hfl : int32ok fl) (hun : int32ok un) (hec : int32ok ec) (hbsz : int32ok bsz)
    (hbck : bck < 4294967296) :
    ∃ T H, Message.packHeader HEADER_MAGIC ver 0 bck bsz fl un cmd ec key [] [] = .ok T ∧
      Message.packHeader HEADER_MAGIC ver (adler32 T) bck bsz fl un cmd ec key [] [] =
        .ok H ∧
      Message.composeHeader ⟨ver, fl, un, cmd, ec, key, body, bsz, bck⟩ = .ok H := by
  have hT : Message.packHeader HEADER_MAGIC ver 0 bck bsz fl un cmd ec key [] [] =
      .ok (writeStr HEADER_MAGIC 4 ++ (int32Bytes ver ++ (be32 0 ++ (be32 bck ++
        (int32Bytes bsz ++ (int32Bytes fl ++ (int32Bytes un ++ (int32Bytes cmd ++
        (int32Bytes ec ++ (writeStr [] 12 ++ (writeStr key 32 ++ writeStr [] 48))))))))))) := by
    rw [Message.packHeader, if_pos]
    exact ⟨hver32, by norm_num, hbck, hbsz, hfl, hun, hcmd32, hec⟩
  set T := writeStr HEADER_MAGIC 4 ++ (int32Bytes ver ++ (be32 0 ++ (be32 bck ++
    (int32Bytes bsz ++ (int32Bytes fl ++ (int32Bytes un ++ (int32Bytes cmd ++
    (int32Bytes ec ++ (writeStr [] 12 ++ (writeStr key 32 ++ writeStr [] 48))))))))))
  have hH : Message.packHeader HEADER_MAGIC ver (adler32 T) bck bsz fl un cmd ec key [] [] =
      .ok (writeStr HEADER_MAGIC 4 ++ (int32Bytes ver ++ (be32 (adler32 T) ++ (be32 bck ++
        (int32Bytes bsz ++ (int32Bytes fl ++ (int32Bytes un ++ (int32Bytes cmd ++
        (int32Bytes ec ++ (writeStr [] 12 ++ (writeStr key 32 ++ writeStr [] 48))))))))))) := by
    rw [Message.packHeader, if_pos]
    exact ⟨hver32, adler32_lt T, hbck, hbsz, hfl, hun, hcmd32, hec⟩
  refine ⟨T, _, hT, hH, ?_⟩
  rw [Message.composeHeader, hT]
  exact hH

/-- Validity of a streaming-header Message: valid header fields, absent
body, body_size -1 (as `Message.mk'` produces with no body and no explicit
size), checksum 1. -/
def Message.streamHeaderValidB (m : Message) : Bool :=
  (m.version == 1 || m.version == 196609) &&
  decide (m.command ∈ knownCommands) &&
  decide (int32ok m.flags) && decide (int32ok m.unused) && decide (int32ok m.error_code) &&
  (m.key.length == 32) && m.key.all (· < 256) &&
  (m.body == none) && (m.body_size == -1) && (m.body_checksum == 1)

/-- C4 (amended): for a composed streaming header (body_size -1) followed
by at least one body byte, `parseRaw` fails with StreamHeaderWithBody ONLY
in the default mode (`return_remaining` false); with `return_remaining`
true the body is first truncated by `substr(0, -1)` to the empty string,
the `body_data && body_size === -1` test then sees a falsy body, and
parsing SUCCEEDS, returning a Message with an empty present body and
body_size -1. -/
theorem c4_stream_header_with_body (m : Message) (h : m.streamHeaderValidB = true)
    (tail : List Nat) (htail : tail ≠ []) :
    (Message.composeRawPacket m).bind (fun d => Message.parseRaw (d ++ tail) false) =
      .error .streamHeaderWithBody ∧
    ∃ rest, (Message.composeRawPacket m).bind (fun d => Message.parseRaw (d ++ tail) true) =
      .ok (Message.mk' m.version m.flags m.unused m.command m.error_code m.key
        (some []) (some (-1)), rest) := by
  obtain ⟨ver, fl, un, cmd, ec, key, body, bsz, bck⟩ := m
  simp only [Message.streamHeaderValidB, Bool.and_eq_true, Bool.or_eq_true, beq_iff_eq,
    decide_eq_true_eq, List.all_eq_true] at h
  obtain ⟨⟨⟨⟨⟨⟨⟨⟨⟨hver, hcmd⟩, hfl⟩, hun⟩, hec⟩, hklen⟩, hkb⟩, hbody⟩, hbsz⟩, hbck⟩ := h
  subst hbody hbsz hbck
  have hkb' : ∀ b ∈ key, b < 256 := fun b hb => by simpa using hkb b hb
  have hver32 : int32ok ver := by
    rcases hver with h | h <;> (subst h; constructor <;> norm_num)
  have hcmd32 : int32ok cmd := int32ok_of_mem_knownCommands cmd hcmd
  obtain ⟨T, H, hT, hH, hcompose⟩ := composeHeader_ok ver fl un cmd ec (-1) 1 key none
    hver32 hcmd32 hfl hun hec (by constructor <;> norm_num) (by norm_num)
  have htr : truthy (some tail) = true := by simp [truthy, htail]
  constructor
  · have hparse := parseRaw_valid_header ver fl un cmd ec (-1) 1 key T H tail false hT hH
      hver hklen hkb'
    rw [Message.composeRawPacket, hcompose]
    show Message.parseRaw ((H ++ []) ++ tail) false = _
    rw [List.append_nil, hparse]
    simp only [if_neg htail, Bool.false_eq_true, if_false]
    simp [htr]
  · have hparse := parseRaw_valid_header ver fl un cmd ec (-1) 1 key T H tail true hT hH
      hver hklen hkb'
    refine ⟨jsSubstrFrom (H ++ tail) (128 + -1), ?_⟩
    rw [Message.composeRawPacket, hcompose]
    show Message.parseRaw ((H ++ []) ++ tail) true = _
    rw [List.append_nil, hparse]
    have hjs : jsTake (-1) tail = [] := rfl
    simp only [if_neg htail, if_pos rfl, Option.map_some', hjs]
    rw [if_neg (by simp [truthy]), if_neg (by simp [truthy]), if_neg (by simp [truthy]),
      if_neg (fun hn => hn hcmd)]
    simp

set_option maxRecDepth 40000 in
/-- C4 counterexample: for a concrete composed streaming header followed
by one body byte, `parseRaw` in `return_remaining` mode does NOT fail with
StreamHeaderWithBody (it succeeds), contradicting the claim's "in both
calling modes". -/
theorem c4_return_remaining_accepts_stream_header_with_body :
    (Message.composeRawPacket
        (Message.mk' 196609 0 0 0x14 0 (List.replicate 32 0) none none)).bind
        (fun d => Message.parseRaw (d ++ [0x41]) true) ≠
      .error .streamHeaderWithBody ∧
    ((Message.composeRawPacket
        (Message.mk' 196609 0 0 0x14 0 (List.replicate 32 0) none none)).bind
        (fun d => Message.parseRaw (d ++ [0x41]) true)).isOk = true := by
  refine ⟨by decide, by decide⟩

/-- C4 witness: the same concrete streaming header with one extra byte is
rejected with StreamHeaderWithBody in the default mode and accepted in
`return_remaining` mode. -/
theorem c4_stream_header_with_body_witness :
    (Message.composeRawPacket
        (Message.mk' 196609 0 0 0x14 0 (List.replicate 32 0) none none)).bind
        (fun d => Message.parseRaw (d ++ [0x41]) false) =
      .error .streamHeaderWithBody ∧
    ∃ rest, (Message.composeRawPacket
        (Message.mk' 196609 0 0 0x14 0 (List.replicate 32 0) none none)).bind
        (fun d => Message.parseRaw (d ++ [0x41]) true) =
      .ok (Message.mk' 196609 0 0 (0x14 : Int) 0 (List.replicate 32 0) (some [])
        (some (-1)), rest) :=
  c4_stream_header_with_body
    (Message.mk' 196609 0 0 0x14 0 (List.replicate 32 0) none none)
    (by decide) [0x41] (by decide)

/-! ### C7: message body invariants -/

/-- C7 counterexample: `composeMessageEx` with payload `[1, 2]` and explicit
`payload_size = 5` yields a Message whose body is present, whose body_size
is 5 (not -1), and whose body length 2 differs from its body_size — the
claimed invariant `len(body) = body_size` fails on a public constructor. -/
theorem c7_composeMessageEx_size_mismatch :
    (Message.composeMessageEx 196609 0 0 0x14 0 [] (some [1, 2]) (some 5)).body =
        some [1, 2] ∧
    (Message.composeMessageEx 196609 0 0 0x14 0 [] (some [1, 2]) (some 5)).body_size = 5 ∧
    (Message.composeMessageEx 196609 0 0 0x14 0 [] (some [1, 2]) (some 5)).body_size ≠ -1 ∧
    ((2 : Int) ≠
      (Message.composeMessageEx 196609 0 0 0x14 0 [] (some [1, 2]) (some 5)).body_size) := by
  refine ⟨rfl, rfl, by decide, by decide⟩

/-- C7 (amended): for every constructor call, a present body always has
`body_checksum = adler32(body)` and an absent body has `body_checksum = 1`;
`body_size` equals the body length whenever no explicit `payload_size`
argument is given (in particular for the fixed-command constructors such as
`composeGetPropCommand`, which never pass one), but `composeMessageEx` with
an explicit `payload_size` sets `body_size` to that argument, which need
not equal the body length. -/
theorem c7_message_body_invariants (version flags unused command error_code : Int)
    (password : List Nat) (body : List Nat) (s : Int) :
    (Message.composeMessageEx version flags unused command error_code password
        (some body) none).body_size = (body.length : Int) ∧
    (Message.composeMessageEx version flags unused command error_code password
        (some body) (some s)).body_size = s ∧
    (Message.composeMessageEx version flags unused command error_code password
        (some body) (some s)).body_checksum = adler32 body ∧
    (Message.composeMessageEx version flags unused command error_code password
        none (some s)).body_checksum = 1 ∧
    (Message.composeGetPropCommand flags password (some body)).body_size =
      (body.length : Int) ∧
    (Message.composeGetPropCommand flags password (some body)).body_checksum =
      adler32 body ∧
    (Message.composeGetPropCommand flags password none).body_checksum = 1 := by
  exact ⟨rfl, rfl, rfl, rfl, rfl, rfl, rfl⟩

/-! ## Firmware codec (src/lib/firmware.ts)

The AES-128 block cipher itself is the node `crypto` library (external to
the repository), so it is a parameter `aes : key → ciphertext block →
plaintext block` of the embedding; CBC chaining, chunking and key/IV
derivation are translated from the source. -/

/-- Error raised by `deriveKey` for an unsupported model. -/
inductive FwErr where
  | unknownModel
  deriving DecidableEq

/-- The static per-model 16-byte root keys (the `keys` table). -/
def firmwareKeys (model : Nat) : Option (List Nat) :=
  if model = 107 then
    some [0x52, 0x49, 0xc3, 0x51, 0x02, 0x8b, 0xf1, 0xfd,
          0x2b, 0xd1, 0x84, 0x9e, 0x28, 0xb2, 0x3f, 0x24]
  else if model = 108 then
    some [0xbb, 0x7d, 0xeb, 0x09, 0x70, 0xd8, 0xee, 0x2e,
          0x00, 0xfa, 0x46, 0xcb, 0x1c, 0x3c, 0x09, 0x8e]
  else if model = 115 then
    some [0x10, 0x75, 0xe8, 0x06, 0xf4, 0x77, 0x0c, 0xd4,
          0x76, 0x3b, 0xd2, 0x85, 0xa6, 0x4e, 0x91, 0x74]
  else if model = 120 then
    some [0x68, 0x8c, 0xdd, 0x3b, 0x1b, 0x6b, 0xdd, 0xa2,
          0x07, 0xb6, 0xce, 0xc2, 0x73, 0x52, 0x92, 0xd2]
  else none

/-- `deriveKey(model)`: throws for unknown models, otherwise XORs each root
key byte with `i + 0x19` (the Buffer element assignment masks to 8 bits). -/
def deriveKey (model : Nat) : Except FwErr (List Nat) :=
  match firmwareKeys model with
  | none => .error .unknownModel
  | some key => .ok ((List.range key.length).map fun i => (key.getD i 0 ^^^ (i + 0x19)) % 256)

/-- The firmware header magic "APPLE-FIRMWARE\x00" (15 bytes). -/
def FIRMWARE_HEADER_MAGIC : List Nat :=
  [0x41, 0x50, 0x50, 0x4c, 0x45, 0x2d, 0x46, 0x49, 0x52, 0x4d, 0x57, 0x41, 0x52, 0x45, 0x00]

/-- The CBC state of `decryptChunk`'s while loop over one chunk: each full
16-byte block is decrypted and XORed against the previous ciphertext block
(initially the IV); a trailing remainder shorter than 16 bytes is copied
through verbatim. -/
def cbcBlocks (aes : List Nat → List Nat → List Nat) (key prev data : List Nat) :
    List Nat :=
  if 16 ≤ data.length then
    List.zipWith (fun a b => a ^^^ b) (aes key (data.take 16)) prev ++
      cbcBlocks aes key (data.take 16) (data.drop 16)
  else data
termination_by data.length
decreasing_by simp only [List.length_drop]; omega

/-- `decryptChunk(data, key, iv)`. -/
def decryptChunk (aes : List Nat → List Nat → List Nat) (key iv data : List Nat) :
    List Nat :=
  cbcBlocks aes key iv data

/-- The chunk loop of `decrypt` in buffer mode: `remaining_length` counts
down from the full length, slicing 0x8000-byte chunks off the front (the
source addresses them with negative indices from the end). -/
def decryptLoop (aes : List Nat → List Nat → List Nat) (key iv data : List Nat)
    (remaining : Nat) : List Nat :=
  if remaining = 0 then []
  else if remaining > 0x8000 then
    decryptChunk aes key iv ((data.drop (data.length - remaining)).take 0x8000) ++
      decryptLoop aes key iv data (remaining - 0x8000)
  else decryptChunk aes key iv (data.drop (data.length - remaining))
termination_by remaining
decreasing_by omega

/-- `decrypt(data, model, byte_0x0f)` in buffer mode: derive the model key,
build the IV as the header magic followed by the header byte at 0x0f, and
run the chunk loop over the whole body. -/
def decrypt (aes : List Nat → List Nat → List Nat) (model byte0x0f : Nat)
    (data : List Nat) : Except FwErr (List Nat) :=
  (deriveKey model).map fun key =>
    decryptLoop aes key (FIRMWARE_HEADER_MAGIC ++ [byte0x0f % 256]) data data.length

/-- Splitting a byte list into 32768-byte chunks (the last possibly
shorter), as the claim describes the chunking. -/
def chunks32768 (l : List Nat) : List (List Nat) :=
  if l = [] then []
  else l.take 32768 :: chunks32768 (l.drop 32768)
termination_by l.length
decreasing_by
  simp only [List.length_drop]
  have : l.length ≠ 0 := fun h => by
    simp_all [List.length_eq_zero]
  omega

/-- The claim's description of one chunk's decryption: AES-CBC on each full
16-byte block (block `i` is XORed against block `i-1`, block 0 against the
IV), with any trailing remainder shorter than 16 bytes passed through
verbatim. -/
def decryptChunkSpec (aes : List Nat → List Nat → List Nat) (key iv data : List Nat) :
    List Nat :=
  let nblocks := data.length / 16
  (((List.range nblocks).map fun i =>
    List.zipWith (fun a b => a ^^^ b) (aes key ((data.drop (16 * i)).take 16))
      (if i = 0 then iv else (data.drop (16 * (i - 1))).take 16)).flatten) ++
    data.drop (16 * nblocks)

/-- The source's per-chunk CBC loop equals the claim's block-indexed
description. -/
theorem cbcBlocks_eq_spec (aes : List Nat → List Nat → List Nat) (key : List Nat) :
    ∀ n data iv, data.length ≤ n → cbcBlocks aes key iv data = decryptChunkSpec aes key iv data := by
  intro n
  induction n with
  | zero =>
      intro data iv hlen
      have hdata : data = [] := List.length_eq_zero.mp (by omega)
      subst hdata
      rw [cbcBlocks]
      simp [decryptChunkSpec]
  | succ n ih =>
      intro data iv hlen
      by_cases h16 : 16 ≤ data.length
      · rw [cbcBlocks, if_pos h16]
        have hrec := ih (data.drop 16) (data.take 16) (by simp [List.length_drop]; omega)
        rw [hrec]
        simp only [decryptChunkSpec]
        have hnb : data.length / 16 = (data.drop 16).length / 16 + 1 := by
          simp only [List.length_drop]
          omega
        rw [hnb]
        set n' := (data.drop 16).length / 16 with hn'
        rw [List.range_succ_eq_map]
        simp only [List.map_cons, List.map_map, List.flatten_cons]
        rw [List.append_assoc]
        refine congrArg₂ (· ++ ·) (by simp) ?_
        refine congrArg₂ (· ++ ·) (congrArg List.flatten ?_) ?_
        · apply List.map_congr_left
          intro i hi
          simp only [Function.comp_apply, Nat.succ_ne_zero, ite_false, Nat.succ_sub_one,
            List.drop_drop]
          cases i with
          | zero => simp
          | succ j =>
              rw [if_neg (Nat.succ_ne_zero j)]
              simp only [Nat.succ_sub_one, List.drop_drop]
              rw [show (16 : Nat) + 16 * (j + 1) = 16 * (j + 1).succ from by omega,
                show (16 : Nat) + 16 * j = 16 * (j + 1) from by omega]
        · simp only [List.drop_drop]
          rw [show (16 : Nat) + 16 * n' = 16 * (n' + 1) from by omega]
      · rw [cbcBlocks, if_neg h16]
        have hnb : data.length / 16 = 0 := by omega
        simp [decryptChunkSpec, hnb]

/-- The source's chunk loop over a full buffer equals mapping the chunk
decryption over the 32768-byte chunk list (with the SAME IV for every
chunk). -/
theorem decryptLoop_eq_chunks (aes : List Nat → List Nat → List Nat) (key iv : List Nat) :
    ∀ remaining data, remaining ≤ data.length →
      decryptLoop aes key iv data remaining =
        ((chunks32768 (data.drop (data.length - remaining))).map
          (decryptChunk aes key iv)).flatten := by
  intro remaining
  induction remaining using Nat.strong_induction_on with
  | _ remaining ih =>
      intro data hle
      by_cases h0 : remaining = 0
      · subst h0
        rw [decryptLoop]
        simp only [if_pos rfl]
        rw [List.drop_of_length_le (by omega), chunks32768]
        simp
      · have hlen : (data.drop (data.length - remaining)).length = remaining := by
          simp only [List.length_drop]
          omega
        have hne : data.drop (data.length - remaining) ≠ [] := by
          intro h
          rw [h] at hlen
          simp at hlen
          omega
        by_cases hbig : remaining > 0x8000
        · rw [decryptLoop, if_neg h0, if_pos hbig]
          rw [chunks32768, if_neg hne]
          simp only [List.map_cons, List.flatten_cons]
          congr 1
          have hrec := ih (remaining - 0x8000) (by omega) data (by omega)
          rw [hrec]
          have hdd : (data.drop (data.length - remaining)).drop 32768 =
              data.drop (data.length - (remaining - 0x8000)) := by
            rw [List.drop_drop]
            have harith : data.length - remaining + 32768 =
                data.length - (remaining - 0x8000) := by omega
            rw [harith]
          rw [hdd]
        · rw [decryptLoop, if_neg h0, if_neg hbig]
          rw [chunks32768, if_neg hne]
          have htk : (data.drop (data.length - remaining)).take 32768 =
              data.drop (data.length - remaining) :=
            List.take_of_length_le (by omega)
          have hdrop : (data.drop (data.length - remaining)).drop 32768 = [] :=
            List.drop_of_length_le (by omega)
          rw [htk, hdrop, chunks32768]
          simp

set_option maxRecDepth 40000 in
/-- C8: for every supported model (107, 108, 115, 120) and header byte,
`decrypt` derives the key by XORing the model's 16-byte root key byte-wise
with `i + 0x19` (the concrete keys are listed), forms the IV as
"APPLE-FIRMWARE\x00" followed by the header byte at offset 0x0f, splits the
body into 32768-byte chunks (the last possibly shorter), and decrypts each
chunk independently — restarting at that same IV — by applying AES-128-CBC
to each full 16-byte block and passing any trailing remainder shorter than
16 bytes through verbatim. -/
theorem c8_firmware_decrypt (aes : List Nat → List Nat → List Nat) (model b0f : Nat)
    (data : List Nat)
    (hmodel : model = 107 ∨ model = 108 ∨ model = 115 ∨ model = 120) :
    ∃ key, deriveKey model = .ok key ∧
      (model = 107 → key = [0x4b, 0x53, 0xd8, 0x4d, 0x1f, 0x95, 0xee, 0xdd,
                            0x0a, 0xf3, 0xa7, 0xba, 0x0d, 0x94, 0x18, 0x0c]) ∧
      (model = 108 → key = [0xa2, 0x67, 0xf0, 0x15, 0x6d, 0xc6, 0xf1, 0x0e,
                            0x21, 0xd8, 0x65, 0xef, 0x39, 0x1a, 0x2e, 0xa6]) ∧
      (model = 115 → key = [0x09, 0x6f, 0xf3, 0x1a, 0xe9, 0x69, 0x13, 0xf4,
                            0x57, 0x19, 0xf1, 0xa1, 0x83, 0x68, 0xb6, 0x5c]) ∧
      (model = 120 → key = [0x71, 0x96, 0xc6, 0x27, 0x06, 0x75, 0xc2, 0x82,
                            0x26, 0x94, 0xed, 0xe6, 0x56, 0x74, 0xb5, 0xfa]) ∧
      decrypt aes model b0f data =
        .ok (((chunks32768 data).map
          (decryptChunkSpec aes key (FIRMWARE_HEADER_MAGIC ++ [b0f % 256]))).flatten) := by
  have hkey : ∃ key, deriveKey model = .ok key ∧
      (model = 107 → key = [0x4b, 0x53, 0xd8, 0x4d, 0x1f, 0x95, 0xee, 0xdd,
                            0x0a, 0xf3, 0xa7, 0xba, 0x0d, 0x94, 0x18, 0x0c]) ∧
      (model = 108 → key = [0xa2, 0x67, 0xf0, 0x15, 0x6d, 0xc6, 0xf1, 0x0e,
                            0x21, 0xd8, 0x65, 0xef, 0x39, 0x1a, 0x2e, 0xa6]) ∧
      (model = 115 → key = [0x09, 0x6f, 0xf3, 0x1a, 0xe9, 0x69, 0x13, 0xf4,
                            0x57, 0x19, 0xf1, 0xa1, 0x83, 0x68, 0xb6, 0x5c]) ∧
      (model = 120 → key = [0x71, 0x96, 0xc6, 0x27, 0x06, 0x75, 0xc2, 0x82,
                            0x26, 0x94, 0xed, 0xe6, 0x56, 0x74, 0xb5, 0xfa]) := by
    rcases hmodel with h | h | h | h <;> subst h <;>
      exact ⟨_, rfl, by decide, by decide, by decide, by decide⟩
  obtain ⟨key, hkeq, h107, h108, h115, h120⟩ := hkey
  refine ⟨key, hkeq, h107, h108, h115, h120, ?_⟩
  rw [decrypt, hkeq]
  show Except.ok (decryptLoop aes key (FIRMWARE_HEADER_MAGIC ++ [b0f % 256])
    data data.length) = _
  have hloop := decryptLoop_eq_chunks aes key (FIRMWARE_HEADER_MAGIC ++ [b0f % 256])
    data.length data (le_refl _)
  rw [Nat.sub_self, List.drop_zero] at hloop
  rw [hloop]
  congr 1
  apply congrArg
  apply List.map_congr_left
  intro c _
  exact cbcBlocks_eq_spec aes key c.length c _ (le_refl _)

/-- C8 witness: model 107 with header byte 0x42, a 20-byte body and the
identity block cipher. -/
theorem c8_firmware_decrypt_witness :
    ∃ key, deriveKey 107 = .ok key ∧
      ((107 : Nat) = 107 → key = [0x4b, 0x53, 0xd8, 0x4d, 0x1f, 0x95, 0xee, 0xdd,
                            0x0a, 0xf3, 0xa7, 0xba, 0x0d, 0x94, 0x18, 0x0c]) ∧
      ((107 : Nat) = 108 → key = [0xa2, 0x67, 0xf0, 0x15, 0x6d, 0xc6, 0xf1, 0x0e,
                            0x21, 0xd8, 0x65, 0xef, 0x39, 0x1a, 0x2e, 0xa6]) ∧
      ((107 : Nat) = 115 → key = [0x09, 0x6f, 0xf3, 0x1a, 0xe9, 0x69, 0x13, 0xf4,
                            0x57, 0x19, 0xf1, 0xa1, 0x83, 0x68, 0xb6, 0x5c]) ∧
      ((107 : Nat) = 120 → key = [0x71, 0x96, 0xc6, 0x27, 0x06, 0x75, 0xc2, 0x82,
                            0x26, 0x94, 0xed, 0xe6, 0x56, 0x74, 0xb5, 0xfa]) ∧
      decrypt (fun _ b => b) 107 0x42 (List.replicate 20 7) =
        .ok (((chunks32768 (List.replicate 20 7)).map
          (decryptChunkSpec (fun _ b => b) key (FIRMWARE_HEADER_MAGIC ++ [0x42 % 256]))).flatten) :=
  c8_firmware_decrypt (fun _ b => b) 107 0x42 (List.replicate 20 7) (Or.inl rfl)

/-! ## Client getProperties (src/lib/client.ts) -/

/-- An entry of the list returned by `getProperties`: a parsed Property or
(with `include_errors`) an Error carrying the element's error code. -/
inductive GetPropEntry where
  | prop (name : List Nat) (value : Option PropValue)
  | err (code : Int)
  deriving DecidableEq

/-- Failures of the getProperties reply loop. -/
inductive GPErr where
  | fuel
  | blocked
  | readOutOfRange
  | propErr (e : PropErr)
  | thrown (code : Int)
  deriving DecidableEq

/-- The reply-processing loop of `Client.getProperties` over the inbound
byte stream: read a 12-byte element header, then `size` value bytes; an
element with flags bit 0 set carries a 4-byte error code and is handled
BEFORE the Property constructor (pushed when `include_errors` is truthy,
otherwise logged into `err`); otherwise the element goes through `new
Property(name, value)` and the loop stops at the sentinel, finally
throwing the recorded error only when `include_errors` is `undefined`. -/
def getPropsLoop (supported : List (List Nat))
    (init : List Nat → List Nat → Except PropErr (List Nat))
    (include_errors : Option Bool) :
    Nat → List Nat → List GetPropEntry → Option Int → Except GPErr (List GetPropEntry)
  | 0, _, _, _ => .error .fuel
  | fuel + 1, stream, acc, lastErr =>
    if stream.length < 12 then .error .blocked else
    let header := stream.take 12
    let name := header.take 4
    let flags := rd32 (header.drop 4)
    let size := rd32 (header.drop 8)
    let rest := stream.drop 12
    if rest.length < size then .error .blocked else
    let value := rest.take size
    let stream' := rest.drop size
    if flags &&& 1 ≠ 0 then
      if value.length < 4 then .error .readOutOfRange else
      let code := rdInt32 value
      match include_errors with
      | some true =>
          getPropsLoop supported init include_errors fuel stream' (acc ++ [.err code]) lastErr
      | _ => getPropsLoop supported init include_errors fuel stream' acc (some code)
    else
      match Property.mk' supported init name value with
      | .error e => .error (.propErr e)
      | .ok ⟨none, _⟩ =>
          match include_errors, lastErr with
          | none, some c => .error (.thrown c)
          | _, _ => .ok acc
      | .ok ⟨some n, v⟩ =>
          getPropsLoop supported init include_errors fuel stream' (acc ++ [.prop n v]) lastErr

/-- A reply element on the wire: an error element (flags bit 0, 4-byte
signed code) or a successful property element. -/
inductive WireElem where
  | errE (name : List Nat) (code : Int)
  | propE (name : List Nat) (value : List Nat)
  deriving DecidableEq

/-- Wire encoding of a reply element: 4-byte name, 4-byte flags, 4-byte
size, then the value bytes. -/
def encodeElem : WireElem → List Nat
  | .errE name code => name ++ (be32 1 ++ (be32 4 ++ int32Bytes code))
  | .propE name value => name ++ (be32 0 ++ (be32 value.length ++ value))

/-- Wire encoding of a whole reply stream (elements then the 16-byte
sentinel as composed by `composeRawElement`). -/
def encodeElems (elems : List WireElem) : List Nat :=
  (elems.map encodeElem).flatten

/-- The sentinel element as the server composes it. -/
def sentinel16 : List Nat := [0, 0, 0, 0, 0, 0, 0, 0, 0, 0, 0, 4, 0, 0, 0, 0]

/-- Well-formedness of a reply element: 4-byte name; error codes in 32-bit
range; property elements have a supported, non-sentinel name, a value the
type initialiser accepts, and a size fitting the 32-bit size field. -/
def wireElemWF (supported : List (List Nat))
    (init : List Nat → List Nat → Except PropErr (List Nat)) : WireElem → Bool
  | .errE name code => name.length == 4 && decide (int32ok code)
  | .propE name value => name.length == 4 && decide (name ≠ [0, 0, 0, 0]) &&
      decide (name ∈ supported) && (init name value).isOk &&
      decide (value.length < 4294967296)

/-- The mixed entry produced for an element when `include_errors` is true. -/
def toMixedEntry (init : List Nat → List Nat → Except PropErr (List Nat)) :
    WireElem → GetPropEntry
  | .errE _ code => .err code
  | .propE n v => .prop n (some (.buf ((init n v).toOption.getD [])))

/-- The entry produced for a successful element (errors skipped). -/
def toPropEntry (init : List Nat → List Nat → Except PropErr (List Nat)) :
    WireElem → Option GetPropEntry
  | .errE _ _ => none
  | .propE n v => some (.prop n (some (.buf ((init n v).toOption.getD []))))

/-- The `err` variable at the end of the loop: the LAST error code seen,
starting from `lastErr`. -/
def lastErrAfter (elems : List WireElem) (lastErr : Option Int) : Option Int :=
  elems.foldl (fun a e => match e with | .errE _ c => some c | .propE _ _ => a) lastErr

/-- Field reads of one wire element at the head of the stream. -/
theorem elemReads (name : List Nat) (flags size : Nat) (value rest : List Nat)
    (hname : name.length = 4) (hflags : flags < 4294967296) (hsize : size < 4294967296)
    (hval : value.length = size) :
    ((name ++ (be32 flags ++ (be32 size ++ (value ++ rest)))).take 12).take 4 = name ∧
    rd32 (((name ++ (be32 flags ++ (be32 size ++ (value ++ rest)))).take 12).drop 4) =
      flags ∧
    rd32 (((name ++ (be32 flags ++ (be32 size ++ (value ++ rest)))).take 12).drop 8) =
      size ∧
    (name ++ (be32 flags ++ (be32 size ++ (value ++ rest)))).drop 12 = value ++ rest ∧
    ¬ (name ++ (be32 flags ++ (be32 size ++ (value ++ rest)))).length < 12 ∧
    ¬ (value ++ rest).length < size ∧
    (value ++ rest).take size = value ∧ (value ++ rest).drop size = rest := by
  set s := name ++ (be32 flags ++ (be32 size ++ (value ++ rest))) with hs
  have hassoc : s = (name ++ (be32 flags ++ be32 size)) ++ (value ++ rest) := by
    rw [hs]
    simp [List.append_assoc]
  have h12 : (name ++ (be32 flags ++ be32 size)).length = 12 := by
    simp [List.length_append, hname, be32_length]
  have htake12 : s.take 12 = name ++ (be32 flags ++ be32 size) := by
    rw [hassoc]
    exact List.take_left' h12
  have hdrop12 : s.drop 12 = value ++ rest := by
    rw [hassoc]
    exact List.drop_left' h12
  have hhT : (name ++ (be32 flags ++ be32 size)).take 4 = name := List.take_left' hname
  have hhD4 : (name ++ (be32 flags ++ be32 size)).drop 4 = be32 flags ++ be32 size :=
    List.drop_left' hname
  have hhD8 : (name ++ (be32 flags ++ be32 size)).drop 8 = be32 size :=
    dropStep _ _ _ 4 hhD4 4 (be32_length flags)
  refine ⟨?_, ?_, ?_, hdrop12, ?_, ?_, ?_, ?_⟩
  · rw [htake12, hhT]
  · rw [htake12, hhD4, rd32_of_append _ _ (be32_length flags), rdBE_be32 _ hflags]
  · rw [htake12, hhD8, rd32_be32 _ hsize]
  · have hlen2 : s.length = 12 + (value.length + rest.length) := by
      rw [hassoc, List.length_append, h12, List.length_append]
    omega
  · simp only [List.length_append]
    omega
  · exact List.take_left' hval
  · exact List.drop_left' hval

/-- One loop iteration on an error element at the head of the stream. -/
theorem getPropsLoop_step_err (supported : List (List Nat))
    (init : List Nat → List Nat → Except PropErr (List Nat)) (mode : Option Bool)
    (fuel : Nat) (name : List Nat) (code : Int) (R : List Nat) (acc : List GetPropEntry)
    (lastErr : Option Int) (hname : name.length = 4) (hcode : int32ok code) :
    getPropsLoop supported init mode (fuel + 1)
        (name ++ (be32 1 ++ (be32 4 ++ (int32Bytes code ++ R)))) acc lastErr =
      match mode with
      | some true => getPropsLoop supported init mode fuel R (acc ++ [.err code]) lastErr
      | _ => getPropsLoop supported init mode fuel R acc (some code) := by
  obtain ⟨hr1, hr2, hr3, hr4, hr5, hr6, hr7, hr8⟩ :=
    elemReads name 1 4 (int32Bytes code) R hname (by norm_num) (by norm_num)
      (int32Bytes_length code)
  simp only [getPropsLoop, hr1, hr2, hr3, hr4, if_neg hr5, if_neg hr6, hr7, hr8]
  rw [if_pos (show (1 &&& 1 : Nat) ≠ 0 by decide),
    if_neg (show ¬ (int32Bytes code).length < 4 by rw [int32Bytes_length]; omega),
    rdInt32_int32Bytes code hcode]

/-- One loop iteration on a successful property element at the head of the
stream. -/
theorem getPropsLoop_step_prop (supported : List (List Nat))
    (init : List Nat → List Nat → Except PropErr (List Nat)) (mode : Option Bool)
    (fuel : Nat) (name v v' R : List Nat) (acc : List GetPropEntry) (lastErr : Option Int)
    (hname : name.length = 4) (hns : name ≠ [0, 0, 0, 0]) (hsup : name ∈ supported)
    (hv' : init name v = .ok v') (hvlen : v.length < 4294967296) :
    getPropsLoop supported init mode (fuel + 1)
        (name ++ (be32 0 ++ (be32 v.length ++ (v ++ R)))) acc lastErr =
      getPropsLoop supported init mode fuel R (acc ++ [.prop name (some (.buf v'))])
        lastErr := by
  obtain ⟨hr1, hr2, hr3, hr4, hr5, hr6, hr7, hr8⟩ :=
    elemReads name 0 v.length v R hname (by norm_num) hvlen rfl
  have hmk : Property.mk' supported init name v = .ok ⟨some name, some (.buf v')⟩ := by
    rw [Property.mk', if_neg hns, if_neg (by simpa using hsup), hv']
    rfl
  simp only [getPropsLoop, hr1, hr2, hr3, hr4, if_neg hr5, if_neg hr6, hr7, hr8]
  rw [if_neg (show ¬ (0 &&& 1 : Nat) ≠ 0 by decide), hmk]

/-- One loop iteration on the sentinel at the head of the stream: the loop
stops, and the recorded error is thrown only when `include_errors` is
`undefined`. -/
theorem getPropsLoop_sentinel (supported : List (List Nat))
    (init : List Nat → List Nat → Except PropErr (List Nat)) (mode : Option Bool)
    (fuel : Nat) (tail : List Nat) (acc : List GetPropEntry) (lastErr : Option Int) :
    getPropsLoop supported init mode (fuel + 1) (sentinel16 ++ tail) acc lastErr =
      match mode, lastErr with
      | none, some c => .error (.thrown c)
      | _, _ => .ok acc := by
  obtain ⟨hr1, hr2, hr3, hr4, hr5, hr6, hr7, hr8⟩ :=
    elemReads [0, 0, 0, 0] 0 4 [0, 0, 0, 0] tail rfl (by norm_num) (by norm_num) rfl
  have hstream : sentinel16 ++ tail =
      [0, 0, 0, 0] ++ (be32 0 ++ (be32 4 ++ ([0, 0, 0, 0] ++ tail))) := rfl
  rw [hstream]
  simp only [getPropsLoop, hr1, hr2, hr3, hr4, if_neg hr5, if_neg hr6, hr7, hr8]
  rw [if_neg (show ¬ (0 &&& 1 : Nat) ≠ 0 by decide)]
  have hmk : Property.mk' supported init [0, 0, 0, 0] [0, 0, 0, 0] = .ok ⟨none, none⟩ := by
    rw [Property.mk', if_pos rfl]
  rw [hmk]

/-- Running the reply loop on a well-formed encoded stream, in all three
`include_errors` modes at once. -/
theorem getPropsLoop_run (supported : List (List Nat))
    (init : List Nat → List Nat → Except PropErr (List Nat)) :
    ∀ (elems : List WireElem), elems.all (wireElemWF supported init) = true →
    ∀ (tail : List Nat) (acc : List GetPropEntry) (lastErr : Option Int) (fuel : Nat),
      elems.length + 1 ≤ fuel →
    getPropsLoop supported init (some true) fuel
        (encodeElems elems ++ (sentinel16 ++ tail)) acc lastErr =
      .ok (acc ++ elems.map (toMixedEntry init)) ∧
    getPropsLoop supported init (some false) fuel
        (encodeElems elems ++ (sentinel16 ++ tail)) acc lastErr =
      .ok (acc ++ elems.filterMap (toPropEntry init)) ∧
    getPropsLoop supported init none fuel
        (encodeElems elems ++ (sentinel16 ++ tail)) acc lastErr =
      (match lastErrAfter elems lastErr with
       | some c => .error (.thrown c)
       | none => .ok (acc ++ elems.filterMap (toPropEntry init))) := by
  intro elems
  induction elems with
  | nil =>
      intro _ tail acc lastErr fuel hfuel
      match fuel, hfuel with
      | fuel + 1, _ =>
        have hnil : encodeElems [] ++ (sentinel16 ++ tail) = sentinel16 ++ tail := rfl
        rw [hnil]
        refine ⟨?_, ?_, ?_⟩ <;>
          (rw [getPropsLoop_sentinel]; simp [lastErrAfter]; try (cases lastErr <;> simp))
  | cons e elems ih =>
      intro hwf tail acc lastErr fuel hfuel
      have hewf : wireElemWF supported init e = true := by
        have h2 := hwf
        simp only [List.all_cons, Bool.and_eq_true] at h2
        exact h2.1
      have hwf' : elems.all (wireElemWF supported init) = true := by
        have h2 := hwf
        simp only [List.all_cons, Bool.and_eq_true] at h2
        exact h2.2
      match fuel, hfuel with
      | fuel + 1, hfuel =>
        have hfuel' : elems.length + 1 ≤ fuel := by
          simp only [List.length_cons] at hfuel
          omega
        have ihm := ih hwf' tail
        cases e with
        | errE name code =>
            simp only [wireElemWF, Bool.and_eq_true, beq_iff_eq, decide_eq_true_eq] at hewf
            obtain ⟨hname, hcode⟩ := hewf
            have hstream : encodeElems (WireElem.errE name code :: elems) ++
                (sentinel16 ++ tail) =
                name ++ (be32 1 ++ (be32 4 ++ (int32Bytes code ++
                  (encodeElems elems ++ (sentinel16 ++ tail))))) := by
              simp [encodeElems, encodeElem, List.append_assoc]
            rw [hstream]
            refine ⟨?_, ?_, ?_⟩ <;> rw [getPropsLoop_step_err supported init _ fuel name code _
              acc lastErr hname hcode]
            · show getPropsLoop supported init (some true) fuel
                (encodeElems elems ++ (sentinel16 ++ tail)) (acc ++ [.err code]) lastErr = _
              rw [(ihm (acc ++ [GetPropEntry.err code]) lastErr fuel hfuel').1]
              simp [toMixedEntry]
            · show getPropsLoop supported init (some false) fuel
                (encodeElems elems ++ (sentinel16 ++ tail)) acc (some code) = _
              rw [(ihm acc (some code) fuel hfuel').2.1]
              simp [toPropEntry]
            · show getPropsLoop supported init none fuel
                (encodeElems elems ++ (sentinel16 ++ tail)) acc (some code) = _
              rw [(ihm acc (some code) fuel hfuel').2.2]
              simp [lastErrAfter, toPropEntry]
        | propE name v =>
            simp only [wireElemWF, Bool.and_eq_true, beq_iff_eq, decide_eq_true_eq] at hewf
            obtain ⟨⟨⟨⟨hname, hns⟩, hsup⟩, hinit⟩, hvlen⟩ := hewf
            obtain ⟨v', hv'⟩ : ∃ v', init name v = .ok v' := by
              cases hi : init name v with
              | ok v' => exact ⟨v', rfl⟩
              | error e =>
                  rw [hi] at hinit
                  simp [Except.isOk, Except.toBool] at hinit
            have hgd : (init name v).toOption.getD [] = v' := by
              rw [hv']
              rfl
            have hstream : encodeElems (WireElem.propE name v :: elems) ++
                (sentinel16 ++ tail) =
                name ++ (be32 0 ++ (be32 v.length ++ (v ++
                  (encodeElems elems ++ (sentinel16 ++ tail))))) := by
              simp [encodeElems, encodeElem, List.append_assoc]
            rw [hstream]
            refine ⟨?_, ?_, ?_⟩ <;> rw [getPropsLoop_step_prop supported init _ fuel name v v' _
              acc lastErr hname hns hsup hv' hvlen]
            · rw [(ihm (acc ++ [GetPropEntry.prop name (some (PropValue.buf v'))]) lastErr fuel hfuel').1]
              simp [toMixedEntry, hgd]
            · rw [(ihm (acc ++ [GetPropEntry.prop name (some (PropValue.buf v'))]) lastErr fuel hfuel').2.1]
              simp [toPropEntry, hgd]
            · rw [(ihm (acc ++ [GetPropEntry.prop name (some (PropValue.buf v'))]) lastErr fuel hfuel').2.2]
              simp only [lastErrAfter, List.foldl_cons]
              cases h : lastErrAfter elems lastErr <;>
                simp [lastErrAfter] at h <;> simp [lastErrAfter, h, toPropEntry, hgd]

/-- C6 (amended): for every well-formed reply stream,
`include_errors = true` returns the mixed success/error entries in stream
order; `include_errors = false` does NOT throw — errors are logged and
omitted from the returned list; with `include_errors` omitted the loop
reads all elements up to the sentinel and then throws the LAST error seen
(not the first), or returns the successes when there was none. -/
theorem c6_getProperties_error_policy (supported : List (List Nat))
    (init : List Nat → List Nat → Except PropErr (List Nat)) (elems : List WireElem)
    (tail : List Nat) (hwf : elems.all (wireElemWF supported init) = true) :
    getPropsLoop supported init (some true) (elems.length + 1)
        (encodeElems elems ++ (sentinel16 ++ tail)) [] none =
      .ok (elems.map (toMixedEntry init)) ∧
    getPropsLoop supported init (some false) (elems.length + 1)
        (encodeElems elems ++ (sentinel16 ++ tail)) [] none =
      .ok (elems.filterMap (toPropEntry init)) ∧
    getPropsLoop supported init none (elems.length + 1)
        (encodeElems elems ++ (sentinel16 ++ tail)) [] none =
      (match lastErrAfter elems none with
       | some c => .error (.thrown c)
       | none => .ok (elems.filterMap (toPropEntry init))) := by
  have h := getPropsLoop_run supported init elems hwf tail [] none (elems.length + 1)
    (le_refl _)
  simpa using h

set_option maxRecDepth 40000 in
/-- C6 counterexample: with `include_errors = false` the loop does not
throw — it returns the successful entries, dropping the error — and with
`include_errors` omitted and two distinct error elements it throws the
LAST error (-16), not the first (-10); both contradict the claim. -/
theorem c6_include_errors_false_does_not_throw :
    getPropsLoop [[0x64, 0x62, 0x75, 0x67]] (fun _ v => .ok v) (some false) 3
      (encodeElems [WireElem.errE [0x64, 0x62, 0x75, 0x67] (-10),
                    WireElem.propE [0x64, 0x62, 0x75, 0x67] [1, 2, 3, 4]] ++
        (sentinel16 ++ [])) [] none =
      .ok [GetPropEntry.prop [0x64, 0x62, 0x75, 0x67] (some (PropValue.buf [1, 2, 3, 4]))] ∧
    getPropsLoop [[0x64, 0x62, 0x75, 0x67]] (fun _ v => .ok v) none 3
      (encodeElems [WireElem.errE [0x64, 0x62, 0x75, 0x67] (-10),
                    WireElem.errE [0x64, 0x62, 0x75, 0x67] (-16)] ++
        (sentinel16 ++ [])) [] none =
      .error (GPErr.thrown (-16)) := by
  exact ⟨by decide, by decide⟩

/-- C6 witness: the amended policy instantiated on a concrete stream with
one error element and one successful element. -/
theorem c6_getProperties_error_policy_witness :
    getPropsLoop [[0x64, 0x62, 0x75, 0x67]] (fun _ v => .ok v) (some true)
        ([WireElem.errE [0x64, 0x62, 0x75, 0x67] (-10),
          WireElem.propE [0x64, 0x62, 0x75, 0x67] [1, 2, 3, 4]].length + 1)
        (encodeElems [WireElem.errE [0x64, 0x62, 0x75, 0x67] (-10),
          WireElem.propE [0x64, 0x62, 0x75, 0x67] [1, 2, 3, 4]] ++ (sentinel16 ++ []))
        [] none =
      .ok ([WireElem.errE [0x64, 0x62, 0x75, 0x67] (-10),
        WireElem.propE [0x64, 0x62, 0x75, 0x67] [1, 2, 3, 4]].map
          (toMixedEntry (fun _ v => .ok v))) ∧
    getPropsLoop [[0x64, 0x62, 0x75, 0x67]] (fun _ v => .ok v) (some false)
        ([WireElem.errE [0x64, 0x62, 0x75, 0x67] (-10),
          WireElem.propE [0x64, 0x62, 0x75, 0x67] [1, 2, 3, 4]].length + 1)
        (encodeElems [WireElem.errE [0x64, 0x62, 0x75, 0x67] (-10),
          WireElem.propE [0x64, 0x62, 0x75, 0x67] [1, 2, 3, 4]] ++ (sentinel16 ++ []))
        [] none =
      .ok ([WireElem.errE [0x64, 0x62, 0x75, 0x67] (-10),
        WireElem.propE [0x64, 0x62, 0x75, 0x67] [1, 2, 3, 4]].filterMap
          (toPropEntry (fun _ v => .ok v))) ∧
    getPropsLoop [[0x64, 0x62, 0x75, 0x67]] (fun _ v => .ok v) none
        ([WireElem.errE [0x64, 0x62, 0x75, 0x67] (-10),
          WireElem.propE [0x64, 0x62, 0x75, 0x67] [1, 2, 3, 4]].length + 1)
        (encodeElems [WireElem.errE [0x64, 0x62, 0x75, 0x67] (-10),
          WireElem.propE [0x64, 0x62, 0x75, 0x67] [1, 2, 3, 4]] ++ (sentinel16 ++ []))
        [] none =
      (match lastErrAfter [WireElem.errE [0x64, 0x62, 0x75, 0x67] (-10),
          WireElem.propE [0x64, 0x62, 0x75, 0x67] [1, 2, 3, 4]] none with
       | some c => .error (.thrown c)
       | none => .ok ([WireElem.errE [0x64, 0x62, 0x75, 0x67] (-10),
           WireElem.propE [0x64, 0x62, 0x75, 0x67] [1, 2, 3, 4]].filterMap
             (toPropEntry (fun _ v => .ok v)))) :=
  c6_getProperties_error_policy [[0x64, 0x62, 0x75, 0x67]] (fun _ v => .ok v)
    [WireElem.errE [0x64, 0x62, 0x75, 0x67] (-10),
     WireElem.propE [0x64, 0x62, 0x75, 0x67] [1, 2, 3, 4]] [] (by decide)

/-! ## CFLBinaryPList codec (src/lib/cflbinary.ts)

JavaScript values supported by the composer: null/undefined, booleans,
non-negative integer numbers, Buffers, strings (modelled by their UTF-8
bytes), arrays and plain-object/Map dicts (keys are strings, modelled by
their UTF-8 bytes).  Non-integer numbers (IEEE reals, markers 0x2?) are
outside this embedding: the composer of the model never emits them and the
parser branch for them is an explicit unmodelled error. -/

mutual
inductive JSValue where
  | nul
  | jbool (b : Bool)
  | jint (n : Nat)
  | jdata (bytes : List Nat)
  | jstr (bytes : List Nat)
  | arr (elems : JSList)
  | dict (pairs : JSPairs)
inductive JSList where
  | nil
  | cons (hd : JSValue) (tl : JSList)
inductive JSPairs where
  | nil
  | cons (key : List Nat) (value : JSValue) (tl : JSPairs)
end

/-- Errors of the CFLBinaryPList codec. -/
inductive CflErr where
  | unsupportedIntSize
  | unsupportedObject
  | notEnoughData
  | badHeaderMagic
  | badFooterMagic
  | trailingGarbage
  | maxDepth
  | unsupportedInfo
  | unsupportedType
  | datesNotImplemented
  | asciiNotImplemented
  | unicodeNotImplemented
  | uidsNotImplemented
  | ordsetsNotImplemented
  | setsNotImplemented
  | countNotInt
  | realUnmodelled
  | nonStringKey
  | fuel
  deriving DecidableEq

/-- The integer branch of `packObject`: try `writeUIntBE` at sizes 1, 2, 4
(each throws a RangeError when the value does not fit) and prefix the
marker `0x10 + log2(size)`; all sizes failing raises the unsupported-int
error.  Also used for the data-count object. -/
def packIntM (n : Nat) : Except CflErr (List Nat) :=
  if n < 256 then .ok [0x10, n]
  else if n < 65536 then .ok [0x11, n / 256, n % 256]
  else if n < 4294967296 then .ok (0x12 :: be32 n)
  else .error .unsupportedIntSize

mutual
/-- `CFLBinaryPListComposer.packObject`. -/
def packObject : JSValue → Except CflErr (List Nat)
  | .nul => .ok [0x00]
  | .jbool b => .ok [if b then 0x09 else 0x08]
  | .jint n => packIntM n
  | .jdata bs =>
      if bs.length ≥ 0xf then (packIntM bs.length).map fun cnt => 0x4f :: (cnt ++ bs)
      else .ok ((0x40 + bs.length) :: bs)
  | .jstr s => .ok (0x70 :: (s ++ [0x00]))
  | .arr es => (packElems es).map fun inner => 0xa0 :: (inner ++ [0x00])
  | .dict ps => (packPairs ps).map fun inner => 0xd0 :: (inner ++ [0x00])
def packElems : JSList → Except CflErr (List Nat)
  | .nil => .ok []
  | .cons e tl =>
      match packObject e, packElems tl with
      | .ok d, .ok ds => .ok (d ++ ds)
      | .error er, _ => .error er
      | .ok _, .error er => .error er
def packPairs : JSPairs → Except CflErr (List Nat)
  | .nil => .ok []
  | .cons k v tl =>
      match packObject v, packPairs tl with
      | .ok dv, .ok ds => .ok ((0x70 :: (k ++ [0x00])) ++ (dv ++ ds))
      | .error er, _ => .error er
      | .ok _, .error er => .error er
end

/-- Whether a parsed element is JavaScript `null` (the array/dict
terminator test `element === null`). -/
def isNul : JSValue → Bool
  | .nul => true
  | _ => false

/-- `CFLBinaryPListParser.unpackInt` (the marker has been consumed; `e` is
its low nibble): reads `2^e` bytes big-endian via `readUIntBE`, which
throws for byte lengths over 6 or reads beyond the buffer. -/
def unpackIntRaw (e : Nat) (data : List Nat) : Except CflErr (Nat × List Nat) :=
  if 2 ^ e > 6 then .error .unsupportedIntSize
  else if data.length < 2 ^ e then .error .notEnoughData
  else .ok (rdBE (data.take (2 ^ e)), data.drop (2 ^ e))

/-- `CFLBinaryPListParser.unpackCount`: inline count below 0xF, otherwise
the count follows as a packed-int object. -/
def unpackCount (info : Nat) (data : List Nat) : Except CflErr (Nat × List Nat) :=
  if info = 0x0f then
    match data with
    | [] => .error .notEnoughData
    | m :: rest =>
        if m &&& 0xf0 = 0x10 then unpackIntRaw (m &&& 0x0f) rest
        else .error .countNotInt
  else .ok (info, data)

mutual
/-- `CFLBinaryPListParser.unpackObject`, with an explicit fuel bound on the
recursion (one unit per recursive entry; parsing is invoked with more fuel
than the input length, which the depth-10 bound and the byte consumed per
element make sufficient for every input the JS parser terminates on). -/
def unpackObject : Nat → List Nat → Nat → Except CflErr (JSValue × List Nat)
  | 0, _, _ => .error .fuel
  | fuel + 1, data, depth =>
    if depth > 10 then .error .maxDepth else
    match data with
    | [] => .error .notEnoughData
    | b :: rest =>
      let t := b &&& 0xf0
      let i := b &&& 0x0f
      if t = 0x00 then
        if i = 0x00 then .ok (.nul, rest)
        else if i = 0x08 then .ok (.jbool false, rest)
        else if i = 0x09 then .ok (.jbool true, rest)
        else .error .unsupportedInfo
      else if t = 0x10 then (unpackIntRaw i rest).map fun (n, r) => (.jint n, r)
      else if t = 0x20 then .error .realUnmodelled
      else if t = 0x30 then .error .datesNotImplemented
      else if t = 0x40 then
        match unpackCount i rest with
        | .error e => .error e
        | .ok (size, r) => .ok (.jdata (r.take size), r.drop size)
      else if t = 0x50 then .error .asciiNotImplemented
      else if t = 0x60 then .error .unicodeNotImplemented
      else if t = 0x70 then
        let pre := rest.takeWhile (· ≠ 0)
        if pre.length = rest.length then .error .notEnoughData
        else .ok (.jstr pre, rest.drop (pre.length + 1))
      else if t = 0x80 then .error .uidsNotImplemented
      else if t = 0xa0 then
        match unpackElems fuel rest depth with
        | .error e => .error e
        | .ok (es, r) => .ok (.arr es, r)
      else if t = 0xb0 then .error .ordsetsNotImplemented
      else if t = 0xc0 then .error .setsNotImplemented
      else if t = 0xd0 then
        match unpackPairs fuel rest depth with
        | .error e => .error e
        | .ok (ps, r) => .ok (.dict ps, r)
      else .error .unsupportedType
/-- The element loop of the array branch (stops at a `null` element). -/
def unpackElems : Nat → List Nat → Nat → Except CflErr (JSList × List Nat)
  | 0, _, _ => .error .fuel
  | fuel + 1, data, depth =>
    match unpackObject fuel data (depth + 1) with
    | .error e => .error e
    | .ok (e, rest) =>
        if isNul e then .ok (.nil, rest)
        else match unpackElems fuel rest depth with
          | .error er => .error er
          | .ok (es, r) => .ok (.cons e es, r)
/-- The key/value loop of the dict branch (stops at a `null` key).  The JS
code coerces any parsed key to a property-name string; the embedding
restricts keys to strings, the only shape the composer emits. -/
def unpackPairs : Nat → List Nat → Nat → Except CflErr (JSPairs × List Nat)
  | 0, _, _ => .error .fuel
  | fuel + 1, data, depth =>
    match unpackObject fuel data (depth + 1) with
    | .error e => .error e
    | .ok (k, rest) =>
        if isNul k then .ok (.nil, rest)
        else match k with
          | .jstr ks =>
              match unpackObject fuel rest (depth + 1) with
              | .error e => .error e
              | .ok (v, rest') =>
                  match unpackPairs fuel rest' depth with
                  | .error er => .error er
                  | .ok (ps, r) => .ok (.cons ks v ps, r)
          | _ => .error .nonStringKey
end

/-- The plist header magic "CFB0" and footer magic "END!". -/
def CFL_HEADER_MAGIC : List Nat := [0x43, 0x46, 0x42, 0x30]

def CFL_FOOTER_MAGIC : List Nat := [0x45, 0x4e, 0x44, 0x21]

/-- `CFLBinaryPListComposer.compose`. -/
def CFLBinaryPList_compose (v : JSValue) : Except CflErr (List Nat) :=
  (packObject v).map fun d => CFL_HEADER_MAGIC ++ (d ++ CFL_FOOTER_MAGIC)

/-- `CFLBinaryPListParser.parse`. -/
def CFLBinaryPList_parse (data : List Nat) : Except CflErr JSValue :=
  if data.length < 4 + 4 + 1 then .error .notEnoughData
  else if data.take 4 ≠ CFL_HEADER_MAGIC then .error .badHeaderMagic
  else
    match unpackObject (data.length + 1) (data.drop 4) 1 with
    | .error e => .error e
    | .ok (obj, remaining) =>
        if remaining.length > 4 then .error .trailingGarbage
        else if remaining ≠ CFL_FOOTER_MAGIC then .error .badFooterMagic
        else .ok obj

/-! ### Round-trip validity predicates for the CFLBinaryPList codec -/

mutual
/-- Values whose composition succeeds and survives the parse exactly:
integers and buffer lengths below 2^32 (the composer only tries widths 1,
2 and 4), strings free of NUL bytes (the parser scans to the first NUL),
arrays without null elements (a null element is the parser's terminator)
and dicts with NUL-free string keys. -/
def okV : JSValue → Bool
  | .nul => true
  | .jbool _ => true
  | .jint n => decide (n < 4294967296)
  | .jdata bs => decide (bs.length < 4294967296)
  | .jstr s => decide ((0 : Nat) ∉ s)
  | .arr es => okL es
  | .dict ps => okP ps
def okL : JSList → Bool
  | .nil => true
  | .cons e tl => !isNul e && okV e && okL tl
def okP : JSPairs → Bool
  | .nil => true
  | .cons k v tl => decide ((0 : Nat) ∉ k) && okV v && okP tl
end

mutual
/-- Nesting height of a value as the parser's depth counter sees it. -/
def heightV : JSValue → Nat
  | .arr es => 1 + heightL es
  | .dict ps => 1 + heightP ps
  | _ => 1
def heightL : JSList → Nat
  | .nil => 1
  | .cons e tl => max (heightV e) (heightL tl)
def heightP : JSPairs → Nat
  | .nil => 1
  | .cons _ v tl => max (heightV v) (heightP tl)
end

/-- Every packed object is at least one byte (its marker). -/
theorem packV_length_pos (v : JSValue) (d : List Nat) (hd : packObject v = .ok d) :
    0 < d.length := by
  cases v with
  | nul => injection hd with h; subst h; simp
  | jbool b => injection hd with h; subst h; simp
  | jint n =>
      rw [packObject, packIntM] at hd
      split at hd
      · injection hd with h; subst h; simp
      · split at hd
        · injection hd with h; subst h; simp
        · split at hd
          · injection hd with h; subst h; simp
          · cases hd
  | jdata bs =>
      rw [packObject] at hd
      split at hd
      · cases hc : packIntM bs.length with
        | error e => rw [hc] at hd; cases hd
        | ok cnt =>
            rw [hc] at hd
            injection hd with h
            subst h
            simp
      · injection hd with h; subst h; simp
  | jstr s => injection hd with h; subst h; simp
  | arr es =>
      rw [packObject] at hd
      cases hc : packElems es with
      | error e => rw [hc] at hd; cases hd
      | ok inner =>
          rw [hc] at hd
          injection hd with h
          subst h
          simp
  | dict ps =>
      rw [packObject] at hd
      cases hc : packPairs ps with
      | error e => rw [hc] at hd; cases hd
      | ok inner =>
          rw [hc] at hd
          injection hd with h
          subst h
          simp

/-- Scanning a NUL-terminated string: the bytes before the terminator and
the data after it. -/
theorem takeWhile_nul_term (s : List Nat) (h : (0 : Nat) ∉ s) (rest : List Nat) :
    (s ++ (0 :: rest)).takeWhile (· ≠ 0) = s ∧
    (s ++ (0 :: rest)).drop (s.length + 1) = rest := by
  constructor
  · induction s with
    | nil => simp
    | cons a tl ih =>
        have ha : a ≠ 0 := fun h0 => h (by simp [h0])
        have htl : (0 : Nat) ∉ tl := fun hm => h (by simp [hm])
        simp only [List.cons_append, List.takeWhile_cons]
        rw [if_pos (by simpa using ha), ih htl]
  · have h1 : (s ++ (0 :: rest)).drop s.length = 0 :: rest := List.drop_left s _
    calc (s ++ (0 :: rest)).drop (s.length + 1)
        = ((s ++ (0 :: rest)).drop s.length).drop 1 := by rw [List.drop_drop]
      _ = rest := by rw [h1, List.drop_one, List.tail_cons]

/-- Marker arithmetic for small inline data counts. -/
theorem dataMarker_small :
    ∀ len, len < 15 → (0x40 + len) &&& 0xf0 = 0x40 ∧ (0x40 + len) &&& 0x0f = len := by
  decide

/-- `unpackInt` on a stream whose prefix is exactly the encoded width. -/
theorem unpackIntRaw_append (e : Nat) (bs rest : List Nat)
    (hlen : bs.length = 2 ^ e) (hsz : 2 ^ e ≤ 6) :
    unpackIntRaw e (bs ++ rest) = .ok (rdBE bs, rest) := by
  rw [unpackIntRaw, if_neg (by omega),
    if_neg (by rw [List.length_append, hlen]; omega),
    ← hlen, List.take_left, List.drop_left]

/-- One parser step on a null marker. -/
theorem unpackObject_nul_step (fuel depth : Nat) (rest : List Nat) (hdep : depth ≤ 10) :
    unpackObject (fuel + 1) (0 :: rest) depth = .ok (.nul, rest) := by
  have hg : ¬ depth > 10 := by omega
  simp [unpackObject, hg]

/-- One parser step on a boolean marker. -/
theorem unpackObject_bool_step (b : Bool) (fuel depth : Nat) (rest : List Nat)
    (hdep : depth ≤ 10) :
    unpackObject (fuel + 1) ((if b then 0x09 else 0x08) :: rest) depth =
      .ok (.jbool b, rest) := by
  have hg : ¬ depth > 10 := by omega
  have a1 : (8 : Nat) &&& 240 = 0 := by decide
  have a2 : (8 : Nat) &&& 15 = 8 := by decide
  have a3 : (9 : Nat) &&& 240 = 0 := by decide
  have a4 : (9 : Nat) &&& 15 = 9 := by decide
  cases b <;> simp [unpackObject, hg, a1, a2, a3, a4]

/-- One parser step on a string marker followed by a NUL-terminated body. -/
theorem unpackObject_str_step (s : List Nat) (hs : (0 : Nat) ∉ s) (fuel depth : Nat)
    (rest : List Nat) (hdep : depth ≤ 10) :
    unpackObject (fuel + 1) (0x70 :: (s ++ (0 :: rest))) depth = .ok (.jstr s, rest) := by
  have hg : ¬ depth > 10 := by omega
  obtain ⟨h1, h2⟩ := takeWhile_nul_term s hs rest
  simp only [ne_eq, decide_not] at h1
  have a1 : (112 : Nat) &&& 240 = 112 := by decide
  simp [unpackObject, hg, h1, h2, a1]

/-- One parser step on an array marker, given the element loop's result. -/
theorem unpackObject_arr_step (fuel depth : Nat) (data : List Nat) (es : JSList)
    (r : List Nat) (hdep : depth ≤ 10)
    (h : unpackElems fuel data depth = .ok (es, r)) :
    unpackObject (fuel + 1) (0xa0 :: data) depth = .ok (.arr es, r) := by
  have hg : ¬ depth > 10 := by omega
  have a1 : (160 : Nat) &&& 240 = 160 := by decide
  simp [unpackObject, hg, h, a1]

/-- One parser step on a dict marker, given the pair loop's result. -/
theorem unpackObject_dict_step (fuel depth : Nat) (data : List Nat) (ps : JSPairs)
    (r : List Nat) (hdep : depth ≤ 10)
    (h : unpackPairs fuel data depth = .ok (ps, r)) :
    unpackObject (fuel + 1) (0xd0 :: data) depth = .ok (.dict ps, r) := by
  have hg : ¬ depth > 10 := by omega
  have a1 : (208 : Nat) &&& 240 = 208 := by decide
  simp [unpackObject, hg, h, a1]

/-- The element loop terminates on a null element. -/
theorem unpackElems_nil_step (fuel depth : Nat) (rest : List Nat) (hdep : depth ≤ 9) :
    unpackElems (fuel + 1 + 1) (0 :: rest) depth = .ok (.nil, rest) := by
  have h0 := unpackObject_nul_step fuel (depth + 1) rest (by omega)
  simp [unpackElems, h0, isNul]

/-- The element loop consumes a non-null element and recurses. -/
theorem unpackElems_cons_step (fuel depth : Nat) (data rest1 r : List Nat)
    (e : JSValue) (es : JSList)
    (h1 : unpackObject fuel data (depth + 1) = .ok (e, rest1))
    (hne : isNul e = false)
    (h2 : unpackElems fuel rest1 depth = .ok (es, r)) :
    unpackElems (fuel + 1) data depth = .ok (.cons e es, r) := by
  simp [unpackElems, h1, hne, h2]

/-- The pair loop terminates on a null key. -/
theorem unpackPairs_nil_step (fuel depth : Nat) (rest : List Nat) (hdep : depth ≤ 9) :
    unpackPairs (fuel + 1 + 1) (0 :: rest) depth = .ok (.nil, rest) := by
  have h0 := unpackObject_nul_step fuel (depth + 1) rest (by omega)
  simp [unpackPairs, h0, isNul]

/-- The pair loop consumes a string key, a value, and recurses. -/
theorem unpackPairs_cons_step (fuel depth : Nat) (data rest1 rest2 r ks : List Nat)
    (v : JSValue) (ps : JSPairs)
    (h1 : unpackObject fuel data (depth + 1) = .ok (.jstr ks, rest1))
    (h2 : unpackObject fuel rest1 (depth + 1) = .ok (v, rest2))
    (h3 : unpackPairs fuel rest2 depth = .ok (ps, r)) :
    unpackPairs (fuel + 1) data depth = .ok (.cons ks v ps, r) := by
  simp [unpackPairs, h1, h2, h3, isNul]

/-- Every value has nesting height at least one. -/
theorem heightV_pos (v : JSValue) : 1 ≤ heightV v := by
  cases v <;> simp [heightV, Nat.le_add_right]

mutual
/-- Parsing the composed bytes of a valid value (appended to any tail)
returns the value and the untouched tail. -/
theorem unpack_packV :
    ∀ (v : JSValue) (d : List Nat) (fuel depth : Nat) (rest : List Nat),
      packObject v = .ok d → okV v = true → d.length < fuel →
      depth + heightV v ≤ 11 →
      unpackObject fuel (d ++ rest) depth = .ok (v, rest)
  | .nul => by
      intro d fuel depth rest hd hok hfuel hdepth
      injection hd with h
      subst h
      have hh : heightV .nul = 1 := rfl
      obtain ⟨f, rfl⟩ : ∃ f, fuel = f + 1 := ⟨fuel - 1, by omega⟩
      exact unpackObject_nul_step f depth rest (by omega)
  | .jbool b => by
      intro d fuel depth rest hd hok hfuel hdepth
      injection hd with h
      subst h
      have hh : heightV (.jbool b) = 1 := rfl
      obtain ⟨f, rfl⟩ : ∃ f, fuel = f + 1 := ⟨fuel - 1, by omega⟩
      exact unpackObject_bool_step b f depth rest (by omega)
  | .jint n => by
      intro d fuel depth rest hd hok hfuel hdepth
      have hh : heightV (.jint n) = 1 := rfl
      rw [packObject, packIntM] at hd
      split at hd
      · injection hd with h
        subst h
        obtain ⟨f, rfl⟩ : ∃ f, fuel = f + 1 := ⟨fuel - 1, by omega⟩
        have hg : ¬ depth > 10 := by omega
        have hint := unpackIntRaw_append 0 [n] rest (by simp) (by norm_num)
        rw [List.singleton_append] at hint
        have hrd : rdBE [n] = n := by simp [rdBE]
        rw [hrd] at hint
        have a1 : (16 : Nat) &&& 240 = 16 := by decide
        have a2 : (16 : Nat) &&& 15 = 0 := by decide
        simp [unpackObject, hg, a1, a2, hint, Except.map]
      · split at hd
        · injection hd with h
          subst h
          obtain ⟨f, rfl⟩ : ∃ f, fuel = f + 1 := ⟨fuel - 1, by omega⟩
          have hg : ¬ depth > 10 := by omega
          have hint := unpackIntRaw_append 1 [n / 256, n % 256] rest (by simp) (by norm_num)
          rw [show ([n / 256, n % 256] : List Nat) ++ rest
              = n / 256 :: (n % 256 :: rest) from rfl] at hint
          have hrd : rdBE [n / 256, n % 256] = n := by
            simp [rdBE]
            omega
          rw [hrd] at hint
          have a1 : (17 : Nat) &&& 240 = 16 := by decide
          have a2 : (17 : Nat) &&& 15 = 1 := by decide
          simp [unpackObject, hg, a1, a2, hint, Except.map]
        · split at hd
          · injection hd with h
            subst h
            obtain ⟨f, rfl⟩ : ∃ f, fuel = f + 1 := ⟨fuel - 1, by omega⟩
            have hg : ¬ depth > 10 := by omega
            have hn : n < 4294967296 := by simpa [okV] using hok
            have hint := unpackIntRaw_append 2 (be32 n) rest
              (by rw [be32_length]; norm_num) (by norm_num)
            rw [rdBE_be32 n hn] at hint
            have a1 : (18 : Nat) &&& 240 = 16 := by decide
            have a2 : (18 : Nat) &&& 15 = 2 := by decide
            simp [unpackObject, hg, a1, a2, hint, Except.map]
          · cases hd
  | .jdata bs => by
      intro d fuel depth rest hd hok hfuel hdepth
      have hh : heightV (.jdata bs) = 1 := rfl
      have hbnd : bs.length < 4294967296 := by simpa [okV] using hok
      rw [packObject] at hd
      split at hd
      · cases hc : packIntM bs.length with
        | error er => rw [hc] at hd; cases hd
        | ok cnt =>
            rw [hc] at hd
            simp only [Except.map] at hd
            injection hd with h
            subst h
            simp only [List.length_cons, List.length_append] at hfuel
            obtain ⟨f, rfl⟩ : ∃ f, fuel = f + 1 := ⟨fuel - 1, by omega⟩
            have hg : ¬ depth > 10 := by omega
            have a1 : (79 : Nat) &&& 240 = 64 := by decide
            have a2 : (79 : Nat) &&& 15 = 15 := by decide
            rw [packIntM] at hc
            by_cases hb1 : bs.length < 256
            · rw [if_pos hb1] at hc
              injection hc with h
              subst h
              have hint := unpackIntRaw_append 0 [bs.length] (bs ++ rest) (by simp) (by norm_num)
              rw [List.singleton_append] at hint
              have hrd : rdBE [bs.length] = bs.length := by simp [rdBE]
              rw [hrd] at hint
              have b1 : (16 : Nat) &&& 240 = 16 := by decide
              have b2 : (16 : Nat) &&& 15 = 0 := by decide
              have hcnt : unpackCount 15 (16 :: (bs.length :: (bs ++ rest)))
                  = .ok (bs.length, bs ++ rest) := by
                simp [unpackCount, b1, b2, hint]
              simp [unpackObject, hg, a1, a2, hcnt, List.take_left, List.drop_left]
            · rw [if_neg hb1] at hc
              by_cases hb2 : bs.length < 65536
              · rw [if_pos hb2] at hc
                injection hc with h
                subst h
                have hint := unpackIntRaw_append 1 [bs.length / 256, bs.length % 256]
                  (bs ++ rest) (by simp) (by norm_num)
                rw [show ([bs.length / 256, bs.length % 256] : List Nat) ++ (bs ++ rest)
                    = bs.length / 256 :: (bs.length % 256 :: (bs ++ rest)) from rfl] at hint
                have hrd : rdBE [bs.length / 256, bs.length % 256] = bs.length := by
                  simp [rdBE]
                  omega
                rw [hrd] at hint
                have b1 : (17 : Nat) &&& 240 = 16 := by decide
                have b2 : (17 : Nat) &&& 15 = 1 := by decide
                have hcnt : unpackCount 15
                    (17 :: (bs.length / 256 :: (bs.length % 256 :: (bs ++ rest))))
                    = .ok (bs.length, bs ++ rest) := by
                  simp [unpackCount, b1, b2, hint]
                simp [unpackObject, hg, a1, a2, hcnt, List.take_left, List.drop_left]
              · rw [if_neg hb2, if_pos hbnd] at hc
                injection hc with h
                subst h
                have hint := unpackIntRaw_append 2 (be32 bs.length) (bs ++ rest)
                  (by rw [be32_length]; norm_num) (by norm_num)
                rw [rdBE_be32 bs.length hbnd] at hint
                have b1 : (18 : Nat) &&& 240 = 16 := by decide
                have b2 : (18 : Nat) &&& 15 = 2 := by decide
                have hcnt : unpackCount 15 (18 :: (be32 bs.length ++ (bs ++ rest)))
                    = .ok (bs.length, bs ++ rest) := by
                  simp [unpackCount, b1, b2, hint]
                simp [unpackObject, hg, a1, a2, hcnt, List.take_left, List.drop_left]
      · rename_i hlt
        injection hd with h
        subst h
        obtain ⟨f, rfl⟩ : ∃ f, fuel = f + 1 := ⟨fuel - 1, by omega⟩
        have hg : ¬ depth > 10 := by omega
        obtain ⟨hm1, hm2⟩ := dataMarker_small bs.length (by omega)
        have hne : bs.length ≠ 15 := by omega
        have hcnt : unpackCount bs.length (bs ++ rest) = .ok (bs.length, bs ++ rest) := by
          simp [unpackCount, hne]
        simp [unpackObject, hg, hm1, hm2, hcnt, List.take_left, List.drop_left]
  | .jstr s => by
      intro d fuel depth rest hd hok hfuel hdepth
      injection hd with h
      subst h
      have hh : heightV (.jstr s) = 1 := rfl
      have hs : (0 : Nat) ∉ s := by simpa [okV] using hok
      obtain ⟨f, rfl⟩ : ∃ f, fuel = f + 1 := ⟨fuel - 1, by omega⟩
      have hstream : ((0x70 :: (s ++ [0x00])) : List Nat) ++ rest
          = 0x70 :: (s ++ (0 :: rest)) := by simp
      rw [hstream]
      exact unpackObject_str_step s hs f depth rest (by omega)
  | .arr es => by
      intro d fuel depth rest hd hok hfuel hdepth
      have hh : heightV (.arr es) = 1 + heightL es := rfl
      have hokL : okL es = true := by simpa [okV] using hok
      rw [packObject] at hd
      cases hc : packElems es with
      | error er => rw [hc] at hd; cases hd
      | ok inner =>
          rw [hc] at hd
          simp only [Except.map] at hd
          injection hd with h
          subst h
          have hlen : ((0xa0 :: (inner ++ [0x00])) : List Nat).length = inner.length + 2 := by
            simp
          obtain ⟨f, rfl⟩ : ∃ f, fuel = f + 1 := ⟨fuel - 1, by omega⟩
          have hstream : ((0xa0 :: (inner ++ [0x00])) : List Nat) ++ rest
              = 0xa0 :: (inner ++ (0 :: rest)) := by simp
          rw [hstream]
          exact unpackObject_arr_step f depth (inner ++ (0 :: rest)) es rest (by omega)
            (unpack_packL es inner f depth rest hc hokL (by omega) (by omega))
  | .dict ps => by
      intro d fuel depth rest hd hok hfuel hdepth
      have hh : heightV (.dict ps) = 1 + heightP ps := rfl
      have hokP : okP ps = true := by simpa [okV] using hok
      rw [packObject] at hd
      cases hc : packPairs ps with
      | error er => rw [hc] at hd; cases hd
      | ok inner =>
          rw [hc] at hd
          simp only [Except.map] at hd
          injection hd with h
          subst h
          have hlen : ((0xd0 :: (inner ++ [0x00])) : List Nat).length = inner.length + 2 := by
            simp
          obtain ⟨f, rfl⟩ : ∃ f, fuel = f + 1 := ⟨fuel - 1, by omega⟩
          have hstream : ((0xd0 :: (inner ++ [0x00])) : List Nat) ++ rest
              = 0xd0 :: (inner ++ (0 :: rest)) := by simp
          rw [hstream]
          exact unpackObject_dict_step f depth (inner ++ (0 :: rest)) ps rest (by omega)
            (unpack_packP ps inner f depth rest hc hokP (by omega) (by omega))
/-- Parsing the composed bytes of a valid element list followed by the
null terminator returns the list and the tail after the terminator. -/
theorem unpack_packL :
    ∀ (es : JSList) (d : List Nat) (fuel depth : Nat) (rest : List Nat),
      packElems es = .ok d → okL es = true → d.length + 2 ≤ fuel →
      depth + heightL es ≤ 10 →
      unpackElems fuel (d ++ (0 :: rest)) depth = .ok (es, rest)
  | .nil => by
      intro d fuel depth rest hd hok hfuel hdepth
      injection hd with h
      subst h
      have hh : heightL .nil = 1 := rfl
      obtain ⟨f, rfl⟩ : ∃ f, fuel = f + 1 + 1 := ⟨fuel - 2, by omega⟩
      exact unpackElems_nil_step f depth rest (by omega)
  | .cons e tl => by
      intro d fuel depth rest hd hok hfuel hdepth
      have hh : heightL (.cons e tl) = max (heightV e) (heightL tl) := rfl
      have hmax1 := Nat.le_max_left (heightV e) (heightL tl)
      have hmax2 := Nat.le_max_right (heightV e) (heightL tl)
      simp only [okL, Bool.and_eq_true, Bool.not_eq_true'] at hok
      obtain ⟨⟨hne, hoke⟩, hokt⟩ := hok
      cases he : packObject e with
      | error er => rw [packElems, he] at hd; cases hd
      | ok de =>
        cases ht : packElems tl with
        | error er => rw [packElems, he, ht] at hd; cases hd
        | ok ds =>
            rw [packElems, he, ht] at hd
            injection hd with h
            subst h
            simp only [List.length_append] at hfuel
            have hpos := packV_length_pos e de he
            obtain ⟨f, rfl⟩ : ∃ f, fuel = f + 1 := ⟨fuel - 1, by omega⟩
            have hstream : ((de ++ ds) : List Nat) ++ (0 :: rest)
                = de ++ (ds ++ (0 :: rest)) := List.append_assoc de ds (0 :: rest)
            rw [hstream]
            exact unpackElems_cons_step f depth (de ++ (ds ++ (0 :: rest)))
              (ds ++ (0 :: rest)) rest e tl
              (unpack_packV e de f (depth + 1) (ds ++ (0 :: rest)) he hoke
                (by omega) (by omega))
              hne
              (unpack_packL tl ds f depth rest ht hokt (by omega) (by omega))
/-- Parsing the composed bytes of a valid key/value pair list followed by
the null terminator returns the pairs and the tail after the terminator. -/
theorem unpack_packP :
    ∀ (ps : JSPairs) (d : List Nat) (fuel depth : Nat) (rest : List Nat),
      packPairs ps = .ok d → okP ps = true → d.length + 2 ≤ fuel →
      depth + heightP ps ≤ 10 →
      unpackPairs fuel (d ++ (0 :: rest)) depth = .ok (ps, rest)
  | .nil => by
      intro d fuel depth rest hd hok hfuel hdepth
      injection hd with h
      subst h
      have hh : heightP .nil = 1 := rfl
      obtain ⟨f, rfl⟩ : ∃ f, fuel = f + 1 + 1 := ⟨fuel - 2, by omega⟩
      exact unpackPairs_nil_step f depth rest (by omega)
  | .cons k v tl => by
      intro d fuel depth rest hd hok hfuel hdepth
      have hh : heightP (.cons k v tl) = max (heightV v) (heightP tl) := rfl
      have hmax1 := Nat.le_max_left (heightV v) (heightP tl)
      have hmax2 := Nat.le_max_right (heightV v) (heightP tl)
      have hv1 := heightV_pos v
      simp only [okP, Bool.and_eq_true, decide_eq_true_eq] at hok
      obtain ⟨⟨hk0, hokv⟩, hokt⟩ := hok
      cases he : packObject v with
      | error er => rw [packPairs, he] at hd; cases hd
      | ok dv =>
        cases ht : packPairs tl with
        | error er => rw [packPairs, he, ht] at hd; cases hd
        | ok ds =>
            rw [packPairs, he, ht] at hd
            injection hd with h
            subst h
            simp only [List.length_append, List.length_cons, List.length_nil] at hfuel
            have hpos := packV_length_pos v dv he
            obtain ⟨f, rfl⟩ : ∃ f, fuel = f + 1 := ⟨fuel - 1, by omega⟩
            obtain ⟨g, rfl⟩ : ∃ g, f = g + 1 := ⟨f - 1, by omega⟩
            have hstream : (((0x70 :: (k ++ [0x00])) ++ (dv ++ ds)) : List Nat) ++ (0 :: rest)
                = 0x70 :: (k ++ (0 :: (dv ++ (ds ++ (0 :: rest))))) := by simp
            rw [hstream]
            exact unpackPairs_cons_step (g + 1) depth _ _ _ _ k v tl
              (unpackObject_str_step k hk0 g (depth + 1) (dv ++ (ds ++ (0 :: rest)))
                (by omega))
              (unpack_packV v dv (g + 1) (depth + 1) (ds ++ (0 :: rest)) he hokv
                (by omega) (by omega))
              (unpack_packP tl ds (g + 1) depth rest ht hokt (by omega) (by omega))
end

mutual
/-- The composer succeeds on every valid value. -/
theorem packV_isOk : ∀ v : JSValue, okV v = true → ∃ d, packObject v = .ok d
  | .nul, _ => ⟨[0x00], rfl⟩
  | .jbool b, _ => ⟨[if b then 0x09 else 0x08], rfl⟩
  | .jint n, h => by
      have hn : n < 4294967296 := by simpa [okV] using h
      rw [packObject, packIntM]
      by_cases h1 : n < 256
      · rw [if_pos h1]; exact ⟨_, rfl⟩
      · rw [if_neg h1]
        by_cases h2 : n < 65536
        · rw [if_pos h2]; exact ⟨_, rfl⟩
        · rw [if_neg h2, if_pos hn]; exact ⟨_, rfl⟩
  | .jdata bs, h => by
      have hb : bs.length < 4294967296 := by simpa [okV] using h
      rw [packObject]
      by_cases hg : bs.length ≥ 15
      · rw [if_pos hg, packIntM]
        by_cases h1 : bs.length < 256
        · rw [if_pos h1]; exact ⟨_, rfl⟩
        · rw [if_neg h1]
          by_cases h2 : bs.length < 65536
          · rw [if_pos h2]; exact ⟨_, rfl⟩
          · rw [if_neg h2, if_pos hb]; exact ⟨_, rfl⟩
      · rw [if_neg hg]; exact ⟨_, rfl⟩
  | .jstr s, _ => ⟨_, rfl⟩
  | .arr es, h => by
      have h' : okL es = true := by simpa [okV] using h
      obtain ⟨inner, hi⟩ := packL_isOk es h'
      refine ⟨0xa0 :: (inner ++ [0x00]), ?_⟩
      rw [packObject, hi]
      rfl
  | .dict ps, h => by
      have h' : okP ps = true := by simpa [okV] using h
      obtain ⟨inner, hi⟩ := packP_isOk ps h'
      refine ⟨0xd0 :: (inner ++ [0x00]), ?_⟩
      rw [packObject, hi]
      rfl
/-- The composer succeeds on every valid element list. -/
theorem packL_isOk : ∀ es : JSList, okL es = true → ∃ d, packElems es = .ok d
  | .nil, _ => ⟨[], rfl⟩
  | .cons e tl, h => by
      simp only [okL, Bool.and_eq_true, Bool.not_eq_true'] at h
      obtain ⟨⟨hne, hoke⟩, hokt⟩ := h
      obtain ⟨de, h1⟩ := packV_isOk e hoke
      obtain ⟨ds, h2⟩ := packL_isOk tl hokt
      refine ⟨de ++ ds, ?_⟩
      rw [packElems, h1, h2]
/-- The composer succeeds on every valid pair list. -/
theorem packP_isOk : ∀ ps : JSPairs, okP ps = true → ∃ d, packPairs ps = .ok d
  | .nil, _ => ⟨[], rfl⟩
  | .cons k v tl, h => by
      simp only [okP, Bool.and_eq_true, decide_eq_true_eq] at h
      obtain ⟨⟨hk, hokv⟩, hokt⟩ := h
      obtain ⟨dv, h1⟩ := packV_isOk v hokv
      obtain ⟨ds, h2⟩ := packP_isOk tl hokt
      refine ⟨(0x70 :: (k ++ [0x00])) ++ (dv ++ ds), ?_⟩
      rw [packPairs, h1, h2]
end

/-- `CFLBinaryPList.parse ∘ compose` is the identity on valid values of
height at most 10, header and footer magic included. -/
theorem cfl_roundtrip (v : JSValue) (hok : okV v = true) (hh : heightV v ≤ 10) :
    ∃ d, CFLBinaryPList_compose v = .ok d ∧ CFLBinaryPList_parse d = .ok v := by
  obtain ⟨dv, hp⟩ := packV_isOk v hok
  have hpos := packV_length_pos v dv hp
  refine ⟨CFL_HEADER_MAGIC ++ (dv ++ CFL_FOOTER_MAGIC), ?_, ?_⟩
  · rw [CFLBinaryPList_compose, hp]
    rfl
  · have hlen : (CFL_HEADER_MAGIC ++ (dv ++ CFL_FOOTER_MAGIC)).length
        = dv.length + 8 := by
      simp [CFL_HEADER_MAGIC, CFL_FOOTER_MAGIC]
    have h2 : (CFL_HEADER_MAGIC ++ (dv ++ CFL_FOOTER_MAGIC)).take 4 = CFL_HEADER_MAGIC := by
      rw [show (4 : Nat) = CFL_HEADER_MAGIC.length from rfl, List.take_left]
    have h3 : (CFL_HEADER_MAGIC ++ (dv ++ CFL_FOOTER_MAGIC)).drop 4
        = dv ++ CFL_FOOTER_MAGIC := by
      rw [show (4 : Nat) = CFL_HEADER_MAGIC.length from rfl, List.drop_left]
    have h4 := unpack_packV v dv
      ((CFL_HEADER_MAGIC ++ (dv ++ CFL_FOOTER_MAGIC)).length + 1) 1 CFL_FOOTER_MAGIC
      hp hok (by omega) (by omega)
    rw [CFLBinaryPList_parse, if_neg (by omega), if_neg (by simp [h2]), h3, h4]
    rfl

/-- C2 (amended): the CFLBinaryPList round trip
`CFLBinaryPListParser.parse (CFLBinaryPListComposer.compose x) = x` holds for
every value built from null, booleans, unsigned integers BELOW 2^32, byte
buffers shorter than 2^32, NUL-free strings, arrays without null elements
and dicts with NUL-free string keys, nested at most 10 levels deep; and the
composer emits the smallest of the widths 1, 2, 4 that fits the integer,
erroring on 2^32 and above (so it does NOT succeed on every u64). -/
theorem c2_cflbinary_roundtrip :
    (∀ v : JSValue, okV v = true → heightV v ≤ 10 →
        ∃ d, CFLBinaryPList_compose v = .ok d ∧ CFLBinaryPList_parse d = .ok v) ∧
    (∀ n : Nat,
        (n < 256 → packIntM n = .ok [0x10, n]) ∧
        (256 ≤ n → n < 65536 → packIntM n = .ok [0x11, n / 256, n % 256]) ∧
        (65536 ≤ n → n < 4294967296 → packIntM n = .ok (0x12 :: be32 n)) ∧
        (4294967296 ≤ n → packIntM n = .error .unsupportedIntSize)) := by
  constructor
  · exact cfl_roundtrip
  · intro n
    refine ⟨?_, ?_, ?_, ?_⟩
    · intro h; rw [packIntM, if_pos h]
    · intro h1 h2; rw [packIntM, if_neg (by omega), if_pos h2]
    · intro h1 h2; rw [packIntM, if_neg (by omega), if_neg (by omega), if_pos h2]
    · intro h; rw [packIntM, if_neg (by omega), if_neg (by omega), if_neg (by omega)]

/-- C2 counterexample: the claim says the composer succeeds on every
unsigned integer up to 2^64-1, but it raises the unsupported-int-size
error for every integer from 2^32 up (`writeUIntBE` is only tried at
byte sizes 1, 2 and 4), so the round trip cannot even start there. -/
theorem c2_compose_fails_at_2pow32 :
    packObject (.jint 4294967296) = .error .unsupportedIntSize ∧
    CFLBinaryPList_compose (.jint 18446744073709551615) =
      .error .unsupportedIntSize := by
  constructor <;> rfl

/-- Witness for C2: the round trip at a concrete nested dict
`{"k": [300, "a"]}` and the two-byte encoding of 300. -/
theorem c2_cflbinary_roundtrip_witness :
    (∃ d, CFLBinaryPList_compose
          (.dict (.cons [107] (.arr (.cons (.jint 300) (.cons (.jstr [97]) .nil))) .nil))
          = .ok d ∧
        CFLBinaryPList_parse d = .ok
          (.dict (.cons [107] (.arr (.cons (.jint 300) (.cons (.jstr [97]) .nil))) .nil))) ∧
    packIntM 300 = .ok [0x11, 300 / 256, 300 % 256] :=
  ⟨c2_cflbinary_roundtrip.1 _ (by decide) (by decide),
   (c2_cflbinary_roundtrip.2 300).2.1 (by norm_num) (by norm_num)⟩

end ACP
